import Mathlib

/-!
# HoMM2 map header decoder

A shallow embedding of `src/main.cpp` (the header decoder of a Heroes of Might
and Magic II map file and its small text renderer) together with the
properties established about it.

Modelling conventions.

* A byte is a `Fin 256`; a `std::string` is a list of bytes (`Str`).
* A `std::ifstream` is its file content, a cursor and the fail state.  No
  exception mask is ever enabled in the source, so a short read does not throw:
  it sets the fail state, leaves the unread part of the destination untouched,
  and every later read or seek is a no-op.
* Objects declared without an initialiser (`uint8_t value;`, the scalar members
  of `HMapInfo hMapInfo;`) hold an indeterminate value.  That value is an
  explicit argument of the embedding, so nothing is assumed about it.
* Integers wider than a byte are loaded on a little-endian host.
* A thrown `std::runtime_error` is `Except.error` carrying the message.
-/

namespace HMap

/-- One byte of a file or of a `std::string`. -/
abbrev Byte := Fin 256

/-- A `std::string`: a sequence of bytes. -/
abbrev Str := List Byte

/-- The bytes of a string literal: one byte per character, its code reduced
modulo 256.  It is only applied to ASCII literals, where it is exact. -/
def lit (s : String) : Str := s.toList.map (fun c => Fin.ofNat c.toNat)

/-! ## The input stream -/

/-- A `std::ifstream` opened in binary mode: the bytes of the file, the read
cursor, and whether `failbit` is set. -/
structure IfStream where
  bytes : List Byte
  pos : Nat
  fail : Bool
deriving DecidableEq

/-- A freshly opened file: cursor at offset 0, good state
(`std::ifstream file(filePath, std::ios::binary)` in `main`). -/
def openFile (bytes : List Byte) : IfStream := { bytes := bytes, pos := 0, fail := false }

/-- `file.read(buf, buf.length)`: `buf` is the destination as it stands before the
call.  On a stream that already failed nothing is stored.  Otherwise the bytes
available at the cursor, at most `buf.length` of them, overwrite the front of the
destination and the cursor advances past them; getting fewer than asked sets the
fail state. -/
def IfStream.read (file : IfStream) (buf : List Byte) : List Byte × IfStream :=
  if file.fail then (buf, file)
  else
    let got := (file.bytes.drop file.pos).take buf.length
    (got ++ buf.drop got.length,
      { file with pos := file.pos + got.length, fail := decide (got.length < buf.length) })

/-- The `n` bytes of an `n`-byte unsigned object holding `value`, least
significant first (little-endian host). -/
def toBytesLE : Nat → Nat → List Byte
  | 0, _ => []
  | n + 1, value => Fin.ofNat (value % 256) :: toBytesLE n (value / 256)

/-- The unsigned value of an object whose bytes are given least significant
first (little-endian host). -/
def ofBytesLE : List Byte → Nat
  | [] => 0
  | b :: bs => b.val + 256 * ofBytesLE bs

/-- Source lines 9-15.  All intermediate values fit in 32 bits: each masked
operand shifted left stays below `2^32`. -/
def toBigEndian (value : Nat) : Nat :=
  ((value &&& 0x000000FF) <<< 24) |||
  ((value &&& 0x0000FF00) <<< 8) |||
  ((value &&& 0x00FF0000) >>> 8) |||
  ((value &&& 0xFF000000) >>> 24)

def hMapTitleLength : Nat := 16

def hMapDescriptionLength : Nat := 200

/-- A `std::bitset<6>`. -/
structure Bitset6 where
  b0 : Bool
  b1 : Bool
  b2 : Bool
  b3 : Bool
  b4 : Bool
  b5 : Bool
deriving DecidableEq

/-- A default-constructed bitset: all bits clear. -/
def Bitset6.zero : Bitset6 := ⟨false, false, false, false, false, false⟩

/-- Reading `colors[i]`. -/
def Bitset6.test (s : Bitset6) : Nat → Bool
  | 0 => s.b0
  | 1 => s.b1
  | 2 => s.b2
  | 3 => s.b3
  | 4 => s.b4
  | 5 => s.b5
  | _ => false

/-- Assigning `colors[i] = v`. -/
def Bitset6.set (s : Bitset6) (i : Nat) (v : Bool) : Bitset6 :=
  match i with
  | 0 => { s with b0 := v }
  | 1 => { s with b1 := v }
  | 2 => { s with b2 := v }
  | 3 => { s with b3 := v }
  | 4 => { s with b4 := v }
  | 5 => { s with b5 := v }
  | _ => s

/-- Source lines 19-30.  The `uint8_t` members hold values below 256. -/
structure HMapInfo where
  version : Nat
  difficulty : Nat
  size : Nat
  colors : Bitset6
  humans : Bitset6
  computers : Bitset6
  victoryCondition : Nat
  lossCondition : Nat
  title : Str
  description : Str
deriving DecidableEq

/-- Source lines 32-36.  `value` is the indeterminate content of the local
before the read. -/
def get8 (value : Nat) (file : IfStream) : Nat × IfStream :=
  let r := file.read (toBytesLE 1 value)
  (ofBytesLE r.1, r.2)

/-- Source lines 38-42. -/
def getLE16 (value : Nat) (file : IfStream) : Nat × IfStream :=
  let r := file.read (toBytesLE 2 value)
  (ofBytesLE r.1, r.2)

/-- Source lines 44-48. -/
def getBE32 (value : Nat) (file : IfStream) : Nat × IfStream :=
  let r := file.read (toBytesLE 4 value)
  (toBigEndian (ofBytesLE r.1), r.2)

/-- The loop of `getString` (source lines 53-61) with `k` iterations left, at
index `i`.  Each iteration reads one byte into `ch`, which was initialised to a
space, stores it at index `i`, and on a null byte truncates to `i` and leaves. -/
def getStringLoop : Nat → Nat → Str → IfStream → Str × IfStream
  | 0, _, content, file => (content, file)
  | k + 1, i, content, file =>
    let r := file.read [32]
    let ch := r.1.headD 32
    let content := content.set i ch
    if ch = 0 then (content.take i, r.2)
    else getStringLoop k (i + 1) content r.2

/-- Source lines 50-63. -/
def getString (file : IfStream) (length : Nat) : Str × IfStream :=
  getStringLoop length 0 (List.replicate length 0) file

/-- Source lines 65-67: `seekg(pos, std::ios::beg)`; a no-op on a failed stream. -/
def moveTo (file : IfStream) (pos : Nat) : IfStream :=
  if file.fail then file else { file with pos := pos }

/-- Whether `pat` occurs in `s` starting at its first byte. -/
def startsWith : Str → Str → Bool
  | _, [] => true
  | [], _ :: _ => false
  | c :: cs, p :: ps => c = p && startsWith cs ps

/-- `s.find(pat)`: the position of the first occurrence of `pat` in `s`, or
`none` for `npos`. -/
def find : Str → Str → Option Nat
  | [], pat => if pat = [] then some 0 else none
  | c :: cs, pat => if startsWith (c :: cs) pat then some 0 else (find cs pat).map (· + 1)

/-- `std::tolower` in the "C" locale (the program never changes the locale):
the letters `A`-`Z` map to `a`-`z`, every other byte is unchanged. -/
def tolower (ch : Byte) : Byte :=
  if 65 ≤ ch.val ∧ ch.val ≤ 90 then Fin.ofNat (ch.val + 32) else ch

/-- Source lines 69-89. -/
def getVersion (filePath : Str) : Except String Nat :=
  match find filePath (lit ".") with
  | none => .error "Invalid filename, no extension."
  | some pos =>
    let fileExtension := (filePath.drop (pos + 1)).map tolower
    if fileExtension = lit "mp2" then .ok 0
    else if fileExtension = lit "mpx" then .ok 1
    else if fileExtension = lit "hxc" then .ok 2
    else if fileExtension = lit "fh2m" then .ok 3
    else .error "Invalid file extension."

/-- Source lines 91-104. -/
def getMapSize (mapWidth : Nat) : Except String Nat :=
  match mapWidth with
  | 36 => .ok 0
  | 72 => .ok 1
  | 108 => .ok 2
  | 144 => .ok 3
  | _ => .error "Invalid map size."

/-- Source lines 106-111.  `mem i` is the indeterminate content of the local of
the `i`-th `get8` call. -/
def getColors (mem : Nat → Nat) (file : IfStream) : Bitset6 × IfStream :=
  (List.range 6).foldl
    (fun st i =>
      let r := get8 (mem i) st.2
      (st.1.set i (decide (r.1 = 1)), r.2))
    (Bitset6.zero, file)

/-- The signature constant of `readHMap`. -/
def signature : Nat := 0x5C000000

/-- Source lines 113-141.  `mem k` is the indeterminate content of the `k`-th
object that is declared without an initialiser: the buffers of the reads in call
order (0 signature, 1 difficulty, 2 width, 3 height, 4-9 colors, 10-15 humans,
16-21 computers, 22 victory condition, 23 loss condition) and, at 24, the member
`hMapInfo.version`, which the function never assigns.  `filePath` is not used by
the body.  The result carries the stream as the call leaves it. -/
def readHMap (mem : Nat → Nat) (file : IfStream) (_filePath : Str) :
    Except String (HMapInfo × IfStream) :=
  let sig := getBE32 (mem 0) file
  if sig.1 ≠ signature then .error "File signature is incorrect."
  else
    let difficulty := getLE16 (mem 1) sig.2
    let mapWidth := get8 (mem 2) difficulty.2
    match getMapSize mapWidth.1 with
    | .error e => .error e
    | .ok size =>
      let height := get8 (mem 3) mapWidth.2
      let colors := getColors (fun i => mem (4 + i)) height.2
      let humans := getColors (fun i => mem (10 + i)) colors.2
      let computers := getColors (fun i => mem (16 + i)) humans.2
      let victoryCondition := get8 (mem 22) computers.2
      let file := moveTo victoryCondition.2 35
      let lossCondition := get8 (mem 23) file
      let file := moveTo lossCondition.2 58
      let title := getString file hMapTitleLength
      let file := moveTo title.2 118
      let description := getString file hMapDescriptionLength
      .ok ({ version := mem 24 % 256
             difficulty := difficulty.1 % 256
             size := size
             colors := colors.1
             humans := humans.1
             computers := computers.1
             victoryCondition := victoryCondition.1
             lossCondition := lossCondition.1
             title := title.1
             description := description.1 }, description.2)

/-- Source lines 143-153. -/
def colorsToString (colors : Bitset6) : Str :=
  let colorsString := (List.range 6).foldl
    (fun acc i =>
      let acc := acc ++ (if colors.test i then lit "1" else lit "0")
      if i < 5 then acc ++ lit "," else acc)
    (lit "[")
  colorsString ++ lit "]"

/-! ## Sample headers -/

/-- A complete 318-byte header: signature `5C 00 00 00`, difficulty bytes 7 and 9,
width 36, three flag regions, victory 255, loss 254, title `Test`, description
`Desc`; the regions the decoder skips hold 3, 5 and 6. -/
def sampleHeader : List Byte :=
  [0x5C, 0, 0, 0] ++ [7, 9] ++ [36, 36] ++ [1, 0, 0, 1, 0, 0] ++ [1, 2, 0, 0, 0, 0]
    ++ [0, 0, 0, 1, 0, 1] ++ [255] ++ List.replicate 8 3 ++ [254] ++ List.replicate 22 5
    ++ lit "Test" ++ List.replicate 12 0 ++ List.replicate 44 6 ++ lit "Desc"
    ++ List.replicate 196 0

/-- The record `readHMap` decodes from `sampleHeader` when the unassigned member
`version` held 0. -/
def sampleRecord : HMapInfo :=
  { version := 0, difficulty := 7, size := 0
    colors := ⟨true, false, false, true, false, false⟩
    humans := ⟨true, false, false, false, false, false⟩
    computers := ⟨false, false, false, true, false, true⟩
    victoryCondition := 255, lossCondition := 254
    title := lit "Test", description := lit "Desc" }

/-- The header `sampleHeader` with the first four bytes replaced by `00 00 00 5C`. -/
def swappedSignatureHeader : List Byte := [0, 0, 0, 0x5C] ++ sampleHeader.drop 4

/-- The header `sampleHeader` with the width byte at offset 6 replaced by 37. -/
def badWidthHeader : List Byte := sampleHeader.set 6 37

/-- A header with both the signature `00 00 00 5C` and the width byte 37. -/
def badSignatureAndWidthHeader : List Byte := swappedSignatureHeader.set 6 37

/-! ## The renderer -/

/-- `std::to_string` of a `uint8_t` (promoted to `int`): its decimal digits. -/
def to_string (n : Nat) : Str := lit (Nat.repr n)

/-- Source lines 155-162.  The `while (true)` loop runs until `find` reports
`npos`; `fuel` bounds the number of iterations, and `none` means the loop was
still running when the fuel ran out.  `content.replace(pos, len, str)` puts
`str` in place of the `len` bytes at `pos`. -/
def replaceProperty : Nat → Str → Str → Str → Option Str
  | 0, _, _, _ => none
  | fuel + 1, content, toReplace, replacement =>
    match find content toReplace with
    | none => some content
    | some pos =>
      replaceProperty fuel
        (content.take pos ++ replacement ++ content.drop (pos + toReplace.length))
        toReplace replacement

/-- Source lines 173-182: the ten `replaceProperty` calls of `displayHMapInfo`, in
order, each with `fuel` iterations at its disposal. -/
def substituteProperties (fuel : Nat) (hMapInfo : HMapInfo) (content : Str) : Option Str :=
  (replaceProperty fuel content (lit "\x7bversion\x7d") (to_string hMapInfo.version)).bind
  fun content =>
  (replaceProperty fuel content (lit "\x7bdifficulty\x7d") (to_string hMapInfo.difficulty)).bind
  fun content =>
  (replaceProperty fuel content (lit "\x7bsize\x7d") (to_string hMapInfo.size)).bind
  fun content =>
  (replaceProperty fuel content (lit "\x7bcolors\x7d") (colorsToString hMapInfo.colors)).bind
  fun content =>
  (replaceProperty fuel content (lit "\x7bhumans\x7d") (colorsToString hMapInfo.humans)).bind
  fun content =>
  (replaceProperty fuel content (lit "\x7bcomputers\x7d")
    (colorsToString hMapInfo.computers)).bind
  fun content =>
  (replaceProperty fuel content (lit "\x7bvictoryCondition\x7d")
    (to_string hMapInfo.victoryCondition)).bind
  fun content =>
  (replaceProperty fuel content (lit "\x7blossCondition\x7d")
    (to_string hMapInfo.lossCondition)).bind
  fun content =>
  (replaceProperty fuel content (lit "\x7btitle\x7d") hMapInfo.title).bind
  fun content =>
  replaceProperty fuel content (lit "\x7bdescription\x7d") hMapInfo.description

/-- Source lines 164-184.  `formatFile` is the content of `format.txt`, or `none`
when it cannot be opened.  The result is `none` when a substitution loop outlives
the fuel, otherwise the thrown error or the text written to standard output. -/
def displayHMapInfo (fuel : Nat) (formatFile : Option Str) (hMapInfo : HMapInfo)
    (_filePath : Str) : Option (Except String Str) :=
  match formatFile with
  | none => some (.error "Couldn't open the format.txt file.")
  | some content =>
    (substituteProperties fuel hMapInfo content).map (fun content => .ok (content ++ lit "\n"))

/-! ## More sample inputs -/

/-- The first 120 bytes of `sampleHeader`: the file ends two bytes into the
description field. -/
def truncatedHeader : List Byte := sampleHeader.take 120

/-- The header `sampleHeader` with other content at offsets the decoder does not
model (5, 7, 30, 40, 100) and three more bytes after offset 317. -/
def noisyHeader : List Byte :=
  (((((sampleHeader.set 5 200).set 7 99).set 30 1).set 40 2).set 100 0) ++ [1, 2, 3]

/-- The header `sampleHeader` with the title field holding the seven bytes
`{title}` followed by null bytes. -/
def loopingTitleHeader : List Byte :=
  sampleHeader.take 58 ++ lit "\x7btitle\x7d" ++ List.replicate 9 0 ++ sampleHeader.drop 74

/-- A minimal well-formed header of 318 bytes: signature `5C 00 00 00`, width 36,
all flag bytes 0, victory and loss byte `FF`, title `Test`, every other byte 0. -/
def minimalHeader : List Byte :=
  [0x5C, 0, 0, 0] ++ [0, 0] ++ [36, 0] ++ List.replicate 18 0 ++ [0xFF] ++ List.replicate 8 0
    ++ [0xFF] ++ List.replicate 22 0 ++ lit "Test" ++ List.replicate 12 0
    ++ List.replicate 44 0 ++ List.replicate 200 0

/-- The report template of the end-to-end example. -/
def sampleTemplate : Str :=
  lit "size: \x7bsize\x7d\ncolors: \x7bcolors\x7d\ntitle: \x7btitle\x7d"

/-- The reference of the refinement claim on `replaceProperty`, written from the
words of the claim and not from the source: one left-to-right pass over the
original content that puts `replacement` for each occurrence of `toReplace` and
copies every other byte.  The first argument bounds the bytes still to visit. -/
def singlePassLoop : Nat → Str → Str → Str → Str
  | 0, _, _, _ => []
  | _ + 1, [], _, _ => []
  | n + 1, c :: cs, toReplace, replacement =>
    if startsWith (c :: cs) toReplace then
      replacement ++ singlePassLoop n ((c :: cs).drop toReplace.length) toReplace replacement
    else c :: singlePassLoop n cs toReplace replacement

/-- The single pass over a whole content. -/
def singlePass (content toReplace replacement : Str) : Str :=
  singlePassLoop content.length content toReplace replacement

/-! ## Byte order -/

theorem and_mask_shift (x k : Nat) : x &&& (255 <<< k) = ((x >>> k) % 256) <<< k := by
  apply Nat.eq_of_testBit_eq
  intro i
  have h255 : (255 : Nat) = 2 ^ 8 - 1 := by norm_num
  have h256 : (256 : Nat) = 2 ^ 8 := by norm_num
  rw [Nat.testBit_and, Nat.testBit_shiftLeft, Nat.testBit_shiftLeft, h256, Nat.testBit_mod_two_pow,
    Nat.testBit_shiftRight, h255, Nat.testBit_two_pow_sub_one]
  by_cases hk : i ≥ k
  · have : k + (i - k) = i := by omega
    simp [hk, this, Bool.and_comm]
  · simp [hk]

theorem toBigEndian_ofBytesLE (b0 b1 b2 b3 : Byte) :
    toBigEndian (ofBytesLE [b0, b1, b2, b3]) =
      b0.val * 2 ^ 24 + b1.val * 2 ^ 16 + b2.val * 2 ^ 8 + b3.val := by
  have h0 := b0.isLt
  have h1 := b1.isLt
  have h2 := b2.isLt
  have h3 := b3.isLt
  generalize hx : ofBytesLE [b0, b1, b2, b3] = x
  have hx' : x = b0.val + 256 * (b1.val + 256 * (b2.val + 256 * b3.val)) := by
    rw [← hx]; simp [ofBytesLE]
  have m0 : x &&& 0x000000FF = b0.val := by
    have := and_mask_shift x 0
    simp only [Nat.shiftLeft_zero, Nat.shiftRight_zero] at this
    rw [this]; omega
  have m1 : x &&& 0x0000FF00 = b1.val * 2 ^ 8 := by
    have := and_mask_shift x 8
    rw [show (255 <<< 8 : Nat) = 0x0000FF00 from rfl] at this
    rw [this, Nat.shiftLeft_eq, Nat.shiftRight_eq_div_pow]
    congr 1; omega
  have m2 : x &&& 0x00FF0000 = b2.val * 2 ^ 16 := by
    have := and_mask_shift x 16
    rw [show (255 <<< 16 : Nat) = 0x00FF0000 from rfl] at this
    rw [this, Nat.shiftLeft_eq, Nat.shiftRight_eq_div_pow]
    congr 1; omega
  have m3 : x &&& 0xFF000000 = b3.val * 2 ^ 24 := by
    have := and_mask_shift x 24
    rw [show (255 <<< 24 : Nat) = 0xFF000000 from rfl] at this
    rw [this, Nat.shiftLeft_eq, Nat.shiftRight_eq_div_pow]
    congr 1; omega
  unfold toBigEndian
  rw [m0, m1, m2, m3]
  simp only [Nat.shiftLeft_eq, Nat.shiftRight_eq_div_pow]
  have e1 : b0.val * 2 ^ 24 ||| b1.val * 2 ^ 8 * 2 ^ 8 = 2 ^ 16 * (2 ^ 8 * b0.val + b1.val) := by
    have := Nat.mul_add_lt_is_or (i := 24) (b := b1.val * 2 ^ 16) (by omega) b0.val
    rw [show b0.val * 2 ^ 24 = 2 ^ 24 * b0.val by ring, show b1.val * 2 ^ 8 * 2 ^ 8 = b1.val * 2 ^ 16 by ring,
      ← this]
    ring
  have e2 : b2.val * 2 ^ 16 / 2 ^ 8 = b2.val * 2 ^ 8 := by omega
  have e3 : b3.val * 2 ^ 24 / 2 ^ 24 = b3.val := by omega
  rw [e1, e2, e3]
  have e4 : 2 ^ 16 * (2 ^ 8 * b0.val + b1.val) ||| b2.val * 2 ^ 8
      = 2 ^ 8 * (2 ^ 8 * (2 ^ 8 * b0.val + b1.val) + b2.val) := by
    have := Nat.mul_add_lt_is_or (i := 16) (b := b2.val * 2 ^ 8) (by omega) (2 ^ 8 * b0.val + b1.val)
    rw [← this]; ring
  rw [e4, ← Nat.mul_add_lt_is_or (by omega)]
  ring

/-! ## Reading from a stream in good state -/

theorem take_succ_drop (s : List Byte) (p n : Nat) (h : p < s.length) :
    (s.drop p).take (n + 1) = s.getD p 0 :: (s.drop (p + 1)).take n := by
  rw [List.drop_eq_getElem_cons h, List.take_succ_cons, List.getD_eq_getElem _ _ h]

theorem length_toBytesLE (n value : Nat) : (toBytesLE n value).length = n := by
  induction n generalizing value with
  | zero => rfl
  | succ n ih => simp [toBytesLE, ih]

theorem read_good (s : List Byte) (p n : Nat) (buf : List Byte) (hn : buf.length = n)
    (h : p + n ≤ s.length) :
    IfStream.read ⟨s, p, false⟩ buf = ((s.drop p).take n, ⟨s, p + n, false⟩) := by
  subst hn
  have hl : ((s.drop p).take buf.length).length = buf.length := by
    rw [List.length_take, List.length_drop]; omega
  simp [IfStream.read, hl]

theorem get8_good (value : Nat) (s : List Byte) (p : Nat) (h : p < s.length) :
    get8 value ⟨s, p, false⟩ = ((s.getD p 0).val, ⟨s, p + 1, false⟩) := by
  rw [get8, read_good s p 1 _ (length_toBytesLE 1 value) (by omega), take_succ_drop s p 0 h]
  simp [ofBytesLE]

theorem getLE16_good (value : Nat) (s : List Byte) (p : Nat) (h : p + 2 ≤ s.length) :
    getLE16 value ⟨s, p, false⟩ =
      ((s.getD p 0).val + 256 * (s.getD (p + 1) 0).val, ⟨s, p + 2, false⟩) := by
  rw [getLE16, read_good s p 2 _ (length_toBytesLE 2 value) h, take_succ_drop s p 1 (by omega),
    take_succ_drop s (p + 1) 0 (by omega)]
  simp [ofBytesLE]

theorem getBE32_good (value : Nat) (s : List Byte) (p : Nat) (h : p + 4 ≤ s.length) :
    getBE32 value ⟨s, p, false⟩ =
      ((s.getD p 0).val * 2 ^ 24 + (s.getD (p + 1) 0).val * 2 ^ 16 + (s.getD (p + 2) 0).val * 2 ^ 8
        + (s.getD (p + 3) 0).val, ⟨s, p + 4, false⟩) := by
  rw [getBE32, read_good s p 4 _ (length_toBytesLE 4 value) h, take_succ_drop s p 3 (by omega),
    take_succ_drop s (p + 1) 2 (by omega), take_succ_drop s (p + 1 + 1) 1 (by omega),
    take_succ_drop s (p + 1 + 1 + 1) 0 (by omega)]
  simp only [List.take_zero, toBigEndian_ofBytesLE]

theorem moveTo_good (s : List Byte) (p q : Nat) : moveTo ⟨s, p, false⟩ q = ⟨s, q, false⟩ := by
  simp [moveTo]

theorem getColors_good (mem : Nat → Nat) (s : List Byte) (p : Nat) (h : p + 6 ≤ s.length) :
    getColors mem ⟨s, p, false⟩ =
      (⟨decide ((s.getD p 0).val = 1), decide ((s.getD (p + 1) 0).val = 1),
        decide ((s.getD (p + 2) 0).val = 1), decide ((s.getD (p + 3) 0).val = 1),
        decide ((s.getD (p + 4) 0).val = 1), decide ((s.getD (p + 5) 0).val = 1)⟩,
       ⟨s, p + 6, false⟩) := by
  have r6 : List.range 6 = [0, 1, 2, 3, 4, 5] := by decide
  simp only [getColors, r6, List.foldl_cons, List.foldl_nil]
  rw [get8_good _ s p (by omega)]
  simp only []
  rw [get8_good _ s (p + 1) (by omega)]
  simp only []
  rw [get8_good _ s (p + 1 + 1) (by omega)]
  simp only []
  rw [get8_good _ s (p + 1 + 1 + 1) (by omega)]
  simp only []
  rw [get8_good _ s (p + 1 + 1 + 1 + 1) (by omega)]
  simp only []
  rw [get8_good _ s (p + 1 + 1 + 1 + 1 + 1) (by omega)]
  simp [Bitset6.set, Bitset6.zero]

/-! ## Fixed-width strings -/

theorem take_set_self (l : Str) (i : Nat) (a : Byte) : (l.set i a).take i = l.take i := by
  induction l generalizing i with
  | nil => simp
  | cons x xs ih =>
    cases i with
    | zero => simp
    | succ i => simp [ih]

theorem take_succ_set_self (l : Str) (i : Nat) (a : Byte) (h : i < l.length) :
    (l.set i a).take (i + 1) = l.take i ++ [a] := by
  induction l generalizing i with
  | nil => simp at h
  | cons x xs ih =>
    cases i with
    | zero => simp
    | succ i => simp [ih i (by simpa using h)]

/-- The loop of `getString` on a stream in good state that still holds the `k`
bytes it may read: the text is what was stored before index `i` followed by the
bytes of the window up to its first null byte, and the cursor stops right after
that null byte (or after the whole window). -/
theorem getStringLoop_good (s : List Byte) :
    ∀ (k i p : Nat) (content : Str), content.length = i + k → p + k ≤ s.length →
      getStringLoop k i content ⟨s, p, false⟩ =
        (content.take i ++ ((s.drop p).take k).takeWhile (fun b => decide (b ≠ 0)),
          ⟨s, p + min k ((((s.drop p).take k).takeWhile (fun b => decide (b ≠ 0))).length + 1),
            false⟩) := by
  intro k
  induction k with
  | zero =>
    intro i p content hc _
    have hle : content.length ≤ i := by omega
    simp [getStringLoop, List.take_of_length_le hle]
  | succ k ih =>
    intro i p content hc hp
    have hlt : p < s.length := by omega
    rw [getStringLoop, read_good s p 1 [32] rfl (by omega), take_succ_drop s p 0 hlt,
      take_succ_drop s p k hlt]
    simp only [List.take_zero, List.headD_cons]
    by_cases h0 : s.getD p 0 = 0
    · rw [if_pos h0, take_set_self, List.takeWhile_cons_of_neg (by simpa using h0)]
      simp
    · have hi : i < content.length := by omega
      rw [if_neg h0, ih (i + 1) (p + 1) (content.set i (s.getD p 0)) (by simp; omega) (by omega),
        take_succ_set_self _ _ _ hi, List.takeWhile_cons_of_pos (by simpa using h0)]
      simp only [List.append_assoc, List.singleton_append, List.length_cons, Prod.mk.injEq,
        true_and, IfStream.mk.injEq, and_true]
      omega

theorem getString_good (s : List Byte) (p n : Nat) (h : p + n ≤ s.length) :
    getString ⟨s, p, false⟩ n =
      (((s.drop p).take n).takeWhile (fun b => decide (b ≠ 0)),
        ⟨s, p + min n ((((s.drop p).take n).takeWhile (fun b => decide (b ≠ 0))).length + 1),
          false⟩) := by
  rw [getString, getStringLoop_good s n 0 p _ (by simp) h]
  simp

/-! ## The decode sequence on a complete header -/

/-- Closed form of `readHMap` on a freshly opened file of at least 318 bytes:
every read finds its bytes, so the outcome is a function of the file content
alone, apart from the member `version`, which keeps its indeterminate value. -/
theorem readHMap_good (mem : Nat → Nat) (s : List Byte) (filePath : Str) (h : 318 ≤ s.length) :
    readHMap mem (openFile s) filePath =
      if (s.getD 0 0).val * 2 ^ 24 + (s.getD 1 0).val * 2 ^ 16 + (s.getD 2 0).val * 2 ^ 8
          + (s.getD 3 0).val ≠ signature then
        .error "File signature is incorrect."
      else
        match getMapSize (s.getD 6 0).val with
        | .error e => .error e
        | .ok size =>
          .ok ({ version := mem 24 % 256
                 difficulty := ((s.getD 4 0).val + 256 * (s.getD 5 0).val) % 256
                 size := size
                 colors := ⟨decide ((s.getD 8 0).val = 1), decide ((s.getD 9 0).val = 1),
                   decide ((s.getD 10 0).val = 1), decide ((s.getD 11 0).val = 1),
                   decide ((s.getD 12 0).val = 1), decide ((s.getD 13 0).val = 1)⟩
                 humans := ⟨decide ((s.getD 14 0).val = 1), decide ((s.getD 15 0).val = 1),
                   decide ((s.getD 16 0).val = 1), decide ((s.getD 17 0).val = 1),
                   decide ((s.getD 18 0).val = 1), decide ((s.getD 19 0).val = 1)⟩
                 computers := ⟨decide ((s.getD 20 0).val = 1), decide ((s.getD 21 0).val = 1),
                   decide ((s.getD 22 0).val = 1), decide ((s.getD 23 0).val = 1),
                   decide ((s.getD 24 0).val = 1), decide ((s.getD 25 0).val = 1)⟩
                 victoryCondition := (s.getD 26 0).val
                 lossCondition := (s.getD 35 0).val
                 title := ((s.drop 58).take 16).takeWhile (fun b => decide (b ≠ 0))
                 description := ((s.drop 118).take 200).takeWhile (fun b => decide (b ≠ 0)) },
               ⟨s, 118 + min 200
                 ((((s.drop 118).take 200).takeWhile (fun b => decide (b ≠ 0))).length + 1),
                 false⟩) := by
  unfold readHMap
  simp only [openFile, hMapTitleLength, hMapDescriptionLength]
  rw [getBE32_good _ s 0 (by omega)]
  simp only [Nat.zero_add]
  split
  · rfl
  · rw [getLE16_good _ s 4 (by omega)]
    simp only []
    rw [get8_good _ s 6 (by omega)]
    simp only []
    cases hsz : getMapSize (s.getD 6 0).val with
    | error e => rfl
    | ok size =>
      simp only []
      rw [get8_good _ s 7 (by omega)]
      simp only []
      rw [getColors_good _ s 8 (by omega)]
      simp only []
      rw [getColors_good _ s 14 (by omega)]
      simp only []
      rw [getColors_good _ s 20 (by omega)]
      simp only []
      rw [get8_good _ s 26 (by omega)]
      simp only [moveTo_good]
      rw [get8_good _ s 35 (by omega)]
      simp only [moveTo_good]
      rw [getString_good s 58 16 (by omega)]
      simp only [moveTo_good]
      rw [getString_good s 118 200 (by omega)]

theorem getD_eq_of_lt (s : List Byte) (i : Nat) (h : i < s.length) : s.getD i 0 = s[i] :=
  List.getD_eq_getElem s 0 h

/-- C1: on a freshly opened file of at least 318 bytes that `readHMap` decodes,
each field of the record is the content of its documented absolute offsets:
difficulty is the little-endian 16-bit value of bytes 4-5 reduced to a byte, that
is byte 4; size is `getMapSize` of byte 6; flag `i` of colors, humans, computers
is set exactly when byte `8+i`, `14+i`, `20+i` equals 1; the victory and loss
conditions are bytes 26 and 35; title and description are the bytes of the
windows `[58,74)` and `[118,318)` that precede the first null byte of the window. -/
theorem readHMap_fields_at_offsets (mem : Nat → Nat) (s : List Byte) (filePath : Str)
    (r : HMapInfo × IfStream) (hlen : 318 ≤ s.length)
    (hok : readHMap mem (openFile s) filePath = .ok r) :
    r.1.difficulty = (s[4].val + 256 * s[5].val) % 256 ∧
    r.1.difficulty = s[4].val ∧
    getMapSize s[6].val = .ok r.1.size ∧
    (∀ (i : Nat) (hi : i < 6), r.1.colors.test i = true ↔ s[8 + i] = 1) ∧
    (∀ (i : Nat) (hi : i < 6), r.1.humans.test i = true ↔ s[14 + i] = 1) ∧
    (∀ (i : Nat) (hi : i < 6), r.1.computers.test i = true ↔ s[20 + i] = 1) ∧
    r.1.victoryCondition = s[26].val ∧
    r.1.lossCondition = s[35].val ∧
    r.1.title = ((s.drop 58).take 16).takeWhile (fun b => decide (b ≠ 0)) ∧
    r.1.description = ((s.drop 118).take 200).takeWhile (fun b => decide (b ≠ 0)) := by
  rw [readHMap_good mem s filePath hlen] at hok
  split at hok
  · cases hok
  · cases hsz : getMapSize (s.getD 6 0).val with
    | error e => rw [hsz] at hok; cases hok
    | ok size =>
      rw [hsz] at hok
      simp only [Except.ok.injEq] at hok
      subst hok
      have hflag : ∀ (p i : Nat) (hi : i < 6) (hp : p + 6 ≤ s.length),
          ((Bitset6.mk (decide ((s.getD p 0).val = 1)) (decide ((s.getD (p + 1) 0).val = 1))
            (decide ((s.getD (p + 2) 0).val = 1)) (decide ((s.getD (p + 3) 0).val = 1))
            (decide ((s.getD (p + 4) 0).val = 1)) (decide ((s.getD (p + 5) 0).val = 1))).test i
              = true ↔ s[p + i] = 1) := by
        intro p i hi hp
        rw [← getD_eq_of_lt s (p + i) (by omega)]
        have hv : ∀ b : Byte, b.val = 1 ↔ b = 1 := fun b => by
          constructor
          · intro h; exact Fin.ext h
          · intro h; rw [h]; rfl
        match i, hi with
        | 0, _ => simp [Bitset6.test, hv]
        | 1, _ => simp [Bitset6.test, hv]
        | 2, _ => simp [Bitset6.test, hv]
        | 3, _ => simp [Bitset6.test, hv]
        | 4, _ => simp [Bitset6.test, hv]
        | 5, _ => simp [Bitset6.test, hv]
      refine ⟨?_, ?_, ?_, ?_, ?_, ?_, ?_, ?_, rfl, rfl⟩
      · simp only [getD_eq_of_lt s 4 (by omega), getD_eq_of_lt s 5 (by omega)]
      · simp only [getD_eq_of_lt s 4 (by omega)]
        have := s[4].isLt
        omega
      · rw [← hsz, getD_eq_of_lt s 6 (by omega)]
      · intro i hi; exact hflag 8 i hi (by omega)
      · intro i hi; exact hflag 14 i hi (by omega)
      · intro i hi; exact hflag 20 i hi (by omega)
      · simp only [getD_eq_of_lt s 26 (by omega)]
      · simp only [getD_eq_of_lt s 35 (by omega)]

set_option maxRecDepth 8192 in
theorem sampleHeader_length : sampleHeader.length = 318 := by
  decide

theorem readHMap_sampleHeader (path : Str) :
    readHMap (fun _ => 0) (openFile sampleHeader) path
      = .ok (sampleRecord, ⟨sampleHeader, 123, false⟩) := by
  rfl

theorem readHMap_fields_at_offsets_witness :
    318 ≤ sampleHeader.length ∧
    readHMap (fun _ => 0) (openFile sampleHeader) (lit "a.mp2")
      = .ok (sampleRecord, ⟨sampleHeader, 123, false⟩) ∧
    sampleRecord.title
      = ((sampleHeader.drop 58).take 16).takeWhile (fun b => decide (b ≠ 0)) :=
  ⟨Nat.le_of_eq sampleHeader_length.symm, readHMap_sampleHeader _,
    (readHMap_fields_at_offsets (fun _ => 0) sampleHeader (lit "a.mp2")
      (sampleRecord, ⟨sampleHeader, 123, false⟩) (Nat.le_of_eq sampleHeader_length.symm)
      (readHMap_sampleHeader _)).2.2.2.2.2.2.2.2.1⟩

/-! ## Signature and map size -/

theorem take_four (s : List Byte) (h : 4 ≤ s.length) :
    s.take 4 = [s.getD 0 0, s.getD 1 0, s.getD 2 0, s.getD 3 0] := by
  have e := take_succ_drop s 0 3 (by omega)
  rw [take_succ_drop s 1 2 (by omega), take_succ_drop s 2 1 (by omega),
    take_succ_drop s 3 0 (by omega)] at e
  simpa using e

/-- The signature comparison of `readHMap` succeeds exactly on the on-disk bytes
`5C 00 00 00`. -/
theorem signature_check_iff (mem : Nat → Nat) (s : List Byte) (h : 4 ≤ s.length) :
    (getBE32 (mem 0) (openFile s)).1 = signature ↔ s.take 4 = [0x5C, 0, 0, 0] := by
  rw [openFile, getBE32_good _ s 0 (by omega), take_four s h]
  simp only [Nat.zero_add]
  generalize s.getD 0 0 = b0
  generalize s.getD 1 0 = b1
  generalize s.getD 2 0 = b2
  generalize s.getD 3 0 = b3
  have h0 := b0.isLt
  have h1 := b1.isLt
  have h2 := b2.isLt
  have h3 := b3.isLt
  constructor
  · intro hs
    simp only [signature] at hs
    have e0 : b0 = 0x5C := Fin.ext (by show b0.val = 92; omega)
    have e1 : b1 = 0 := Fin.ext (by show b1.val = 0; omega)
    have e2 : b2 = 0 := Fin.ext (by show b2.val = 0; omega)
    have e3 : b3 = 0 := Fin.ext (by show b3.val = 0; omega)
    rw [e0, e1, e2, e3]
  · intro hs
    injection hs with e0 hs
    injection hs with e1 hs
    injection hs with e2 hs
    injection hs with e3 hs
    rw [e0, e1, e2, e3]
    rfl

theorem getMapSize_error (w : Nat) (e : String) (h : getMapSize w = .error e) :
    e = "Invalid map size." := by
  unfold getMapSize at h
  split at h <;> simp_all

/-- Once the signature comparison has succeeded, `readHMap` either throws what
`getMapSize` throws or returns a record. -/
theorem readHMap_after_signature (mem : Nat → Nat) (file : IfStream) (filePath : Str)
    (h : (getBE32 (mem 0) file).1 = signature) :
    readHMap mem file filePath = .error "Invalid map size." ∨
      ∃ r, readHMap mem file filePath = .ok r := by
  unfold readHMap
  simp only [h, ne_eq, not_true_eq_false, if_false]
  cases hsz : getMapSize (get8 (mem 2) (getLE16 (mem 1) (getBE32 (mem 0) file).2).2).1 with
  | error e => left; rw [getMapSize_error _ _ hsz]
  | ok size => right; exact ⟨_, rfl⟩

/-- C2 (amended): on a freshly opened file of at least 4 bytes, the signature
comparison of `readHMap` succeeds when the first four bytes on disk are `5C 00 00 00`
in that order, and then `readHMap` does not throw the bad-signature error; with
any other first four bytes it throws "File signature is incorrect.". -/
theorem readHMap_signature_bytes (mem : Nat → Nat) (s : List Byte) (filePath : Str)
    (hlen : 4 ≤ s.length) :
    (s.take 4 = [0x5C, 0, 0, 0] →
      (getBE32 (mem 0) (openFile s)).1 = signature ∧
      readHMap mem (openFile s) filePath ≠ .error "File signature is incorrect.") ∧
    (s.take 4 ≠ [0x5C, 0, 0, 0] →
      readHMap mem (openFile s) filePath = .error "File signature is incorrect.") := by
  constructor
  · intro h4
    have hsig := (signature_check_iff mem s hlen).2 h4
    refine ⟨hsig, ?_⟩
    rcases readHMap_after_signature mem (openFile s) filePath hsig with h | ⟨r, h⟩
    · rw [h]; intro hc; injection hc with hc; exact absurd hc (by decide)
    · rw [h]; exact fun hc => by cases hc
  · intro h4
    have hsig : (getBE32 (mem 0) (openFile s)).1 ≠ signature :=
      fun hc => h4 ((signature_check_iff mem s hlen).1 hc)
    unfold readHMap
    simp only [ne_eq, hsig, not_false_eq_true, if_true]

set_option maxRecDepth 8192 in
theorem readHMap_signature_bytes_witness :
    readHMap (fun _ => 0) (openFile sampleHeader) (lit "a.mp2")
        ≠ .error "File signature is incorrect." ∧
    readHMap (fun _ => 0) (openFile swappedSignatureHeader) (lit "a.mp2")
        = .error "File signature is incorrect." :=
  ⟨((readHMap_signature_bytes (fun _ => 0) sampleHeader (lit "a.mp2")
      (by rw [sampleHeader_length]; decide)).1 (by decide)).2,
   (readHMap_signature_bytes (fun _ => 0) swappedSignatureHeader (lit "a.mp2")
      (by decide)).2 (by decide)⟩

set_option maxRecDepth 8192 in
/-- C2 (as stated) fails: a 318-byte file whose first four bytes on disk are
`00 00 00 5C` and whose remaining bytes form a valid header is rejected with the
bad-signature error, while the same file with first bytes `5C 00 00 00`, which are
other bytes, is decoded. -/
theorem readHMap_signature_00_00_00_5C_rejected :
    swappedSignatureHeader.take 4 = [0, 0, 0, 0x5C] ∧
    readHMap (fun _ => 0) (openFile swappedSignatureHeader) (lit "a.mp2")
        = .error "File signature is incorrect." ∧
    sampleHeader.take 4 ≠ [0, 0, 0, 0x5C] ∧
    readHMap (fun _ => 0) (openFile sampleHeader) (lit "a.mp2")
        = .ok (sampleRecord, ⟨sampleHeader, 123, false⟩) :=
  ⟨by decide, rfl, by decide, rfl⟩

theorem getMapSize_other (w : Nat) (h1 : w ≠ 36) (h2 : w ≠ 72) (h3 : w ≠ 108) (h4 : w ≠ 144) :
    getMapSize w = .error "Invalid map size." := by
  unfold getMapSize
  split <;> first | rfl | contradiction

/-- C3: `getMapSize` returns 0, 1, 2, 3 on the widths 36, 72, 108, 144, throws
"Invalid map size." on every other value (so on every other byte value), and
whatever it returns is a code in 0..3. -/
theorem getMapSize_table (w : Nat) :
    (w = 36 → getMapSize w = .ok 0) ∧
    (w = 72 → getMapSize w = .ok 1) ∧
    (w = 108 → getMapSize w = .ok 2) ∧
    (w = 144 → getMapSize w = .ok 3) ∧
    (w ≠ 36 → w ≠ 72 → w ≠ 108 → w ≠ 144 → getMapSize w = .error "Invalid map size.") ∧
    (∀ c, getMapSize w = .ok c → c ≤ 3) := by
  refine ⟨?_, ?_, ?_, ?_, ?_, ?_⟩
  · rintro rfl; rfl
  · rintro rfl; rfl
  · rintro rfl; rfl
  · rintro rfl; rfl
  · exact getMapSize_other w
  · intro c hc
    unfold getMapSize at hc
    split at hc <;> first | (injection hc with hc; omega) | cases hc

theorem getMapSize_table_witness :
    getMapSize 108 = .ok 2 ∧ getMapSize 37 = .error "Invalid map size." ∧ (1 : Nat) ≤ 3 :=
  ⟨(getMapSize_table 108).2.2.1 rfl,
   (getMapSize_table 37).2.2.2.2.1 (by decide) (by decide) (by decide) (by decide),
   (getMapSize_table 72).2.2.2.2.2 1 rfl⟩

/-- C4: on a freshly opened file of at least 318 bytes, `readHMap` throws exactly
when its signature comparison fails or the width byte at offset 6 is none of 36,
72, 108, 144.  The first failure in stream order wins: a failed signature
comparison gives "File signature is incorrect." whatever the width byte is, a
passed one with a bad width gives "Invalid map size.", and in every remaining case
a record is returned. -/
theorem readHMap_failure_order (mem : Nat → Nat) (s : List Byte) (filePath : Str)
    (hlen : 318 ≤ s.length) :
    ((getBE32 (mem 0) (openFile s)).1 ≠ signature →
      readHMap mem (openFile s) filePath = .error "File signature is incorrect.") ∧
    ((getBE32 (mem 0) (openFile s)).1 = signature → s[6].val ∉ [36, 72, 108, 144] →
      readHMap mem (openFile s) filePath = .error "Invalid map size.") ∧
    ((getBE32 (mem 0) (openFile s)).1 = signature → s[6].val ∈ [36, 72, 108, 144] →
      ∃ r, readHMap mem (openFile s) filePath = .ok r) ∧
    ((∃ e, readHMap mem (openFile s) filePath = .error e) ↔
      ((getBE32 (mem 0) (openFile s)).1 ≠ signature ∨ s[6].val ∉ [36, 72, 108, 144])) := by
  have hbad : (getBE32 (mem 0) (openFile s)).1 ≠ signature →
      readHMap mem (openFile s) filePath = .error "File signature is incorrect." := by
    intro hsig
    unfold readHMap
    simp only [ne_eq, hsig, not_false_eq_true, if_true]
  have hform := readHMap_good mem s filePath hlen
  have hsigv : (getBE32 (mem 0) (openFile s)).1 =
      (s.getD 0 0).val * 2 ^ 24 + (s.getD 1 0).val * 2 ^ 16 + (s.getD 2 0).val * 2 ^ 8
          + (s.getD 3 0).val := by
    rw [openFile, getBE32_good _ s 0 (by omega)]
  rw [getD_eq_of_lt s 6 (by omega), ← hsigv] at hform
  have hwidth : (getBE32 (mem 0) (openFile s)).1 = signature → s[6].val ∉ [36, 72, 108, 144] →
      readHMap mem (openFile s) filePath = .error "Invalid map size." := by
    intro hsig hw
    simp only [List.mem_cons, List.mem_singleton, List.not_mem_nil, or_false, not_or] at hw
    rw [hform, if_neg (by simpa using hsig),
      getMapSize_other s[6].val hw.1 hw.2.1 hw.2.2.1 hw.2.2.2]
  have hgood : (getBE32 (mem 0) (openFile s)).1 = signature → s[6].val ∈ [36, 72, 108, 144] →
      ∃ r, readHMap mem (openFile s) filePath = .ok r := by
    intro hsig hw
    simp only [List.mem_cons, List.mem_singleton, List.not_mem_nil, or_false] at hw
    rw [hform, if_neg (by simpa using hsig)]
    rcases hw with hw | hw | hw | hw <;> rw [hw] <;> exact ⟨_, rfl⟩
  refine ⟨hbad, hwidth, hgood, ?_⟩
  constructor
  · rintro ⟨e, he⟩
    by_cases hsig : (getBE32 (mem 0) (openFile s)).1 = signature
    · right
      intro hw
      obtain ⟨r, hr⟩ := hgood hsig hw
      rw [hr] at he
      cases he
    · left; exact hsig
  · intro h
    by_cases hsig : (getBE32 (mem 0) (openFile s)).1 = signature
    · rcases h with h | h
      · exact absurd hsig h
      · exact ⟨_, hwidth hsig h⟩
    · exact ⟨_, hbad hsig⟩

set_option maxRecDepth 8192 in
theorem readHMap_failure_order_witness :
    readHMap (fun _ => 0) (openFile badSignatureAndWidthHeader) (lit "a.mp2")
      = .error "File signature is incorrect." ∧
    readHMap (fun _ => 0) (openFile badWidthHeader) (lit "a.mp2")
      = .error "Invalid map size." ∧
    (∃ r, readHMap (fun _ => 0) (openFile sampleHeader) (lit "a.mp2") = .ok r) :=
  ⟨(readHMap_failure_order (fun _ => 0) badSignatureAndWidthHeader (lit "a.mp2")
      (by decide)).1 (by decide),
   (readHMap_failure_order (fun _ => 0) badWidthHeader (lit "a.mp2")
      (by decide)).2.1 (by decide) (by decide),
   (readHMap_failure_order (fun _ => 0) sampleHeader (lit "a.mp2")
      (by decide)).2.2.1 (by decide) (by decide)⟩

/-! ## Strings and flag sets -/

/-- C5: on a stream in good state with at least `n` bytes left at the cursor,
`getString(n)` returns the bytes of that `n`-byte window that precede its first
null byte; when the window holds no null byte that is the whole window. -/
theorem getString_window (file : IfStream) (n : Nat) (hgood : file.fail = false)
    (hleft : file.pos + n ≤ file.bytes.length) :
    (getString file n).1
      = ((file.bytes.drop file.pos).take n).takeWhile (fun b => decide (b ≠ 0)) ∧
    ((0 : Byte) ∉ (file.bytes.drop file.pos).take n →
      (getString file n).1 = (file.bytes.drop file.pos).take n) := by
  obtain ⟨s, p, f⟩ := file
  simp only at hgood hleft
  subst hgood
  rw [getString_good s p n hleft]
  refine ⟨rfl, ?_⟩
  intro hnull
  simp only
  rw [List.takeWhile_eq_self_iff]
  intro b hb
  simp only [ne_eq, decide_not, Bool.not_eq_eq_eq_not, Bool.not_true, decide_eq_false_iff_not]
  rintro rfl
  exact hnull hb

theorem getString_window_witness :
    (getString (openFile (lit "ABC" ++ [0] ++ lit "fillerfiller")) 16).1 = lit "ABC" ∧
    (getString (openFile (lit "sixteen letters.")) 16).1 = lit "sixteen letters." :=
  ⟨(getString_window (openFile (lit "ABC" ++ [0] ++ lit "fillerfiller")) 16 rfl
      (by decide)).1.trans (by decide),
   (getString_window (openFile (lit "sixteen letters.")) 16 rfl (by decide)).2 (by decide)⟩

/-- C6: when the six bytes at the cursor of a stream in good state are
`b0 .. b5`, `getColors` returns the flag set whose flag `i` is set exactly when
`b_i` is 1, and leaves the stream in good state with the cursor advanced by 6. -/
theorem getColors_flags (mem : Nat → Nat) (file : IfStream) (b0 b1 b2 b3 b4 b5 : Byte)
    (hgood : file.fail = false)
    (hbytes : (file.bytes.drop file.pos).take 6 = [b0, b1, b2, b3, b4, b5]) :
    (getColors mem file).1
      = ⟨decide (b0 = 1), decide (b1 = 1), decide (b2 = 1), decide (b3 = 1), decide (b4 = 1),
          decide (b5 = 1)⟩ ∧
    (∀ i, i < 6 →
      ((getColors mem file).1.test i = true ↔ [b0, b1, b2, b3, b4, b5].getD i 0 = 1)) ∧
    (getColors mem file).2 = { file with pos := file.pos + 6 } := by
  obtain ⟨s, p, f⟩ := file
  simp only at hgood hbytes
  subst hgood
  have hlen : p + 6 ≤ s.length := by
    have := congrArg List.length hbytes
    simp only [List.length_take, List.length_drop, List.length_cons, List.length_nil] at this
    omega
  rw [take_succ_drop s p 5 (by omega), take_succ_drop s (p + 1) 4 (by omega),
    take_succ_drop s (p + 2) 3 (by omega), take_succ_drop s (p + 3) 2 (by omega),
    take_succ_drop s (p + 4) 1 (by omega), take_succ_drop s (p + 5) 0 (by omega)] at hbytes
  simp only [List.take_zero, List.cons.injEq, and_true] at hbytes
  obtain ⟨e0, e1, e2, e3, e4, e5⟩ := hbytes
  have hv : ∀ b : Byte, b.val = 1 ↔ b = 1 := fun b =>
    ⟨fun h => Fin.ext h, fun h => by rw [h]; rfl⟩
  have hc := getColors_good mem s p hlen
  rw [e0, e1, e2, e3, e4, e5] at hc
  simp only [hv] at hc
  rw [hc]
  refine ⟨rfl, ?_, rfl⟩
  intro i hi
  match i, hi with
  | 0, _ => simp [Bitset6.test]
  | 1, _ => simp [Bitset6.test]
  | 2, _ => simp [Bitset6.test]
  | 3, _ => simp [Bitset6.test]
  | 4, _ => simp [Bitset6.test]
  | 5, _ => simp [Bitset6.test]

theorem getColors_flags_witness :
    (getColors (fun _ => 0) (openFile [1, 0, 0, 1, 0, 0])).1
      = ⟨true, false, false, true, false, false⟩ ∧
    (getColors (fun _ => 0) ⟨[9, 9, 2, 1, 255, 0, 1, 1, 9], 2, false⟩)
      = (⟨false, true, false, false, true, true⟩, ⟨[9, 9, 2, 1, 255, 0, 1, 1, 9], 8, false⟩) :=
  ⟨(getColors_flags (fun _ => 0) (openFile [1, 0, 0, 1, 0, 0]) 1 0 0 1 0 0 rfl rfl).1,
   Prod.ext
    (getColors_flags (fun _ => 0) ⟨[9, 9, 2, 1, 255, 0, 1, 1, 9], 2, false⟩ 2 1 255 0 1 1 rfl
      rfl).1
    (getColors_flags (fun _ => 0) ⟨[9, 9, 2, 1, 255, 0, 1, 1, 9], 2, false⟩ 2 1 255 0 1 1 rfl
      rfl).2.2⟩

/-- C7: `colorsToString` renders a flag set as the 13 bytes
`[c0,c1,c2,c3,c4,c5]`, where `c_i` is `1` when flag `i` is set and `0` otherwise,
in slot order; the flags decoded from the bytes `1 0 0 1 0 0` render as
`[1,0,0,1,0,0]`. -/
theorem colorsToString_text (f : Bitset6) :
    colorsToString f =
      lit "[" ++ (if f.test 0 then lit "1" else lit "0") ++ lit ","
        ++ (if f.test 1 then lit "1" else lit "0") ++ lit ","
        ++ (if f.test 2 then lit "1" else lit "0") ++ lit ","
        ++ (if f.test 3 then lit "1" else lit "0") ++ lit ","
        ++ (if f.test 4 then lit "1" else lit "0") ++ lit ","
        ++ (if f.test 5 then lit "1" else lit "0") ++ lit "]" ∧
    (colorsToString f).length = 13 ∧
    colorsToString (getColors (fun _ => 0) (openFile [1, 0, 0, 1, 0, 0])).1
      = lit "[1,0,0,1,0,0]" := by
  obtain ⟨a0, a1, a2, a3, a4, a5⟩ := f
  refine ⟨?_, ?_, by decide⟩
  · cases a0 <;> cases a1 <;> cases a2 <;> cases a3 <;> cases a4 <;> cases a5 <;> decide
  · cases a0 <;> cases a1 <;> cases a2 <;> cases a3 <;> cases a4 <;> cases a5 <;> decide

/-! ## Resolving the format variant from the file name -/

theorem lit_dot : lit "." = [46] := by decide

theorem find_dot_cons (c : Byte) (cs : Str) :
    find (c :: cs) [46] = if c = 46 then some 0 else (find cs [46]).map (· + 1) := by
  by_cases h : c = 46 <;> simp [find, startsWith, h]

theorem find_dot_none (s : Str) (h : (46 : Byte) ∉ s) : find s [46] = none := by
  induction s with
  | nil => simp [find]
  | cons c cs ih =>
    simp only [List.mem_cons, not_or] at h
    rw [find_dot_cons, if_neg (fun hc => h.1 hc.symm), ih h.2]
    rfl

theorem find_dot_first (a b : Str) (h : (46 : Byte) ∉ a) :
    find (a ++ 46 :: b) [46] = some a.length := by
  induction a with
  | nil => simp [find_dot_cons]
  | cons c cs ih =>
    simp only [List.mem_cons, not_or] at h
    rw [List.cons_append, find_dot_cons, if_neg (fun hc => h.1 hc.symm), ih h.2]
    rfl

/-- What `getVersion` computes: the extension it classifies is everything after
the FIRST `.` of the path. -/
theorem getVersion_first_dot (a b : Str) (h : (46 : Byte) ∉ a) :
    getVersion (a ++ 46 :: b) =
      if b.map tolower = lit "mp2" then .ok 0
      else if b.map tolower = lit "mpx" then .ok 1
      else if b.map tolower = lit "hxc" then .ok 2
      else if b.map tolower = lit "fh2m" then .ok 3
      else .error "Invalid file extension." := by
  unfold getVersion
  rw [lit_dot, find_dot_first a b h]
  simp only
  rw [show a ++ 46 :: b = a ++ ([46] ++ b) from rfl, ← List.append_assoc]
  rw [List.drop_left' (by simp)]

set_option maxRecDepth 100000 in
theorem tolower_dot_iff (c : Byte) : tolower c = 46 ↔ c = 46 := by
  revert c
  decide

theorem dot_mem_map_tolower (s : Str) : (46 : Byte) ∈ s.map tolower ↔ (46 : Byte) ∈ s := by
  simp only [List.mem_map]
  constructor
  · rintro ⟨c, hc, hl⟩
    rwa [(tolower_dot_iff c).1 hl] at hc
  · intro h
    exact ⟨46, h, by decide⟩

/-- A path with a `.` in what follows its first `.` is rejected. -/
theorem getVersion_second_dot (a b : Str) (ha : (46 : Byte) ∉ a) (hb : (46 : Byte) ∈ b) :
    getVersion (a ++ 46 :: b) = .error "Invalid file extension." := by
  have hm := (dot_mem_map_tolower b).2 hb
  have h1 : b.map tolower ≠ lit "mp2" := fun e => by rw [e] at hm; revert hm; decide
  have h2 : b.map tolower ≠ lit "mpx" := fun e => by rw [e] at hm; revert hm; decide
  have h3 : b.map tolower ≠ lit "hxc" := fun e => by rw [e] at hm; revert hm; decide
  have h4 : b.map tolower ≠ lit "fh2m" := fun e => by rw [e] at hm; revert hm; decide
  rw [getVersion_first_dot a b ha, if_neg h1, if_neg h2, if_neg h3, if_neg h4]

/-- What the code does guarantee for supported extensions: when the stem holds no
`.`, the path `stem.ext` resolves to 0, 1, 2, 3 for `ext` equal, ignoring letter case, to
`mp2`, `mpx`, `hxc`, `fh2m`. -/
theorem getVersion_dotless_stem (stem ext : Str) (hstem : (46 : Byte) ∉ stem) :
    (ext.map tolower = lit "mp2" → getVersion (stem ++ lit "." ++ ext) = .ok 0) ∧
    (ext.map tolower = lit "mpx" → getVersion (stem ++ lit "." ++ ext) = .ok 1) ∧
    (ext.map tolower = lit "hxc" → getVersion (stem ++ lit "." ++ ext) = .ok 2) ∧
    (ext.map tolower = lit "fh2m" → getVersion (stem ++ lit "." ++ ext) = .ok 3) := by
  have e : stem ++ lit "." ++ ext = stem ++ 46 :: ext := by rw [lit_dot]; simp
  rw [e, getVersion_first_dot stem ext hstem]
  refine ⟨?_, ?_, ?_, ?_⟩ <;> intro h <;> rw [h] <;> rfl

theorem getVersion_dotless_stem_witness :
    getVersion (lit "maps/a" ++ lit "." ++ lit "MpX") = .ok 1 :=
  (getVersion_dotless_stem (lit "maps/a") (lit "MpX") (by decide)).2.1 (by decide)

/-- C8 fails on the code: `getVersion` cuts the path at its first `.`, so a
supported extension is rejected as soon as the stem holds a `.`; the paths
`./maps/a.mp2` and `my.map.MP2` throw "Invalid file extension." instead of
resolving to 0, while `a.mp2` resolves to 0. -/
theorem getVersion_dotted_stem_rejected :
    getVersion (lit "./maps/a" ++ lit "." ++ lit "mp2") = .error "Invalid file extension." ∧
    getVersion (lit "my.map" ++ lit "." ++ lit "MP2") = .error "Invalid file extension." ∧
    getVersion (lit "a" ++ lit "." ++ lit "mp2") = .ok 0 :=
  ⟨rfl, rfl, rfl⟩

/-- C9: `getVersion` accepts no unsupported extension.  A path without `.` throws
"Invalid filename, no extension."; a path whose text after its final `.` (the
`ext` of a decomposition `pre.ext` with no `.` in `ext`) is, ignoring letter case,
none of `mp2`, `mpx`, `hxc`, `fh2m` throws "Invalid file extension.". -/
theorem getVersion_rejects_unsupported (filePath : Str) :
    ((46 : Byte) ∉ filePath → getVersion filePath = .error "Invalid filename, no extension.") ∧
    (∀ pre ext : Str, filePath = pre ++ lit "." ++ ext → (46 : Byte) ∉ ext →
      ext.map tolower ≠ lit "mp2" → ext.map tolower ≠ lit "mpx" →
      ext.map tolower ≠ lit "hxc" → ext.map tolower ≠ lit "fh2m" →
      getVersion filePath = .error "Invalid file extension.") := by
  constructor
  · intro h
    unfold getVersion
    rw [lit_dot, find_dot_none filePath h]
  · intro pre ext hp hext h1 h2 h3 h4
    have e : filePath = pre ++ 46 :: ext := by rw [hp, lit_dot]; simp
    by_cases hpre : (46 : Byte) ∈ pre
    · obtain ⟨a, b, hab, ha⟩ := List.eq_append_cons_of_mem hpre
      rw [e, hab, List.append_assoc, List.cons_append]
      exact getVersion_second_dot a (b ++ 46 :: ext) ha (by simp)
    · rw [e, getVersion_first_dot pre ext hpre, if_neg h1, if_neg h2, if_neg h3, if_neg h4]

theorem getVersion_rejects_unsupported_witness :
    getVersion (lit "README") = .error "Invalid filename, no extension." ∧
    getVersion (lit "a.mp2.bak") = .error "Invalid file extension." :=
  ⟨(getVersion_rejects_unsupported (lit "README")).1 (by decide),
   (getVersion_rejects_unsupported (lit "a.mp2.bak")).2 (lit "a.mp2") (lit "bak") (by decide)
      (by decide) (by decide) (by decide) (by decide) (by decide)⟩

/-! ## The format variant of a decoded record -/

/-- The member `version` of a decoded record is the indeterminate value the
object held when it was declared, whatever the stream and the path are. -/
theorem readHMap_version_indeterminate (mem : Nat → Nat) (file : IfStream) (filePath : Str)
    (r : HMapInfo × IfStream) (hok : readHMap mem file filePath = .ok r) :
    r.1.version = mem 24 % 256 := by
  unfold readHMap at hok
  simp only at hok
  split at hok
  · cases hok
  · split at hok
    · cases hok
    · injection hok with hok
      rw [← hok]

theorem readHMap_version_indeterminate_witness : sampleRecord.version = 0 % 256 :=
  readHMap_version_indeterminate (fun _ => 0) (openFile sampleHeader) (lit "a.mp2")
    (sampleRecord, ⟨sampleHeader, 123, false⟩) (readHMap_sampleHeader _)

/-- The path argument of `readHMap` has no influence on its result. -/
theorem readHMap_ignores_path (mem : Nat → Nat) (file : IfStream) (p q : Str) :
    readHMap mem file p = readHMap mem file q := rfl

/-- C10 fails on the code: `readHMap` never assigns `version` and never calls
`getVersion`.  On a valid 318-byte header with the path `a.mpx`, for which
`getVersion` resolves variant 1, the decoded `version` is whatever the
unassigned member held: 0 when it held 0, and 200, outside 0..3, when it held
200.  A path without extension, for which `getVersion` throws, is decoded all the
same. -/
theorem readHMap_version_not_from_path :
    getVersion (lit "a.mpx") = .ok 1 ∧
    (∃ r, readHMap (fun _ => 0) (openFile sampleHeader) (lit "a.mpx") = .ok r ∧
      r.1.version = 0) ∧
    (∃ r, readHMap (fun _ => 200) (openFile sampleHeader) (lit "a.mpx") = .ok r ∧
      r.1.version = 200) ∧
    getVersion (lit "README") = .error "Invalid filename, no extension." ∧
    (∃ r, readHMap (fun _ => 0) (openFile sampleHeader) (lit "README") = .ok r) :=
  ⟨rfl, ⟨_, readHMap_sampleHeader _, rfl⟩,
    ⟨({ sampleRecord with version := 200 }, ⟨sampleHeader, 123, false⟩), rfl, rfl⟩,
    rfl, ⟨_, readHMap_sampleHeader _⟩⟩

/-! ## Truncated files -/

/-- What a returned record tells about the run of `readHMap`, on any stream: the
signature comparison succeeded, `getMapSize` returned the size, and title and
description are results of `getString` with the two field widths. -/
theorem readHMap_shape (mem : Nat → Nat) (file : IfStream) (filePath : Str)
    (r : HMapInfo × IfStream) (hok : readHMap mem file filePath = .ok r) :
    (getBE32 (mem 0) file).1 = signature ∧
    getMapSize (get8 (mem 2) (getLE16 (mem 1) (getBE32 (mem 0) file).2).2).1 = .ok r.1.size ∧
    (∃ f, r.1.title = (getString f hMapTitleLength).1) ∧
    (∃ g, r.1.description = (getString g hMapDescriptionLength).1) := by
  unfold readHMap at hok
  simp only at hok
  split at hok
  · cases hok
  · rename_i hsig
    split at hok
    · cases hok
    · rename_i size hsz
      injection hok with hok
      subst hok
      exact ⟨by simpa using hsig, hsz, ⟨_, rfl⟩, ⟨_, rfl⟩⟩

/-- On a freshly opened file of at least 7 bytes the width handed to `getMapSize`
is the byte at offset 6. -/
theorem width_read (mem : Nat → Nat) (s : List Byte) (h7 : 7 ≤ s.length) :
    (get8 (mem 2) (getLE16 (mem 1) (getBE32 (mem 0) (openFile s)).2).2).1 = (s.getD 6 0).val := by
  rw [openFile, getBE32_good _ s 0 (by omega)]
  simp only [Nat.zero_add]
  rw [getLE16_good _ s 4 (by omega)]
  simp only
  rw [get8_good _ s 6 (by omega)]

/-- The only errors `readHMap` throws, on any stream. -/
theorem readHMap_errors (mem : Nat → Nat) (file : IfStream) (filePath : Str) (e : String)
    (h : readHMap mem file filePath = .error e) :
    e = "File signature is incorrect." ∨ e = "Invalid map size." := by
  by_cases hsig : (getBE32 (mem 0) file).1 = signature
  · rcases readHMap_after_signature mem file filePath hsig with h2 | ⟨r, h2⟩
    · rw [h2] at h; injection h with h; exact Or.inr h.symm
    · rw [h2] at h; cases h
  · unfold readHMap at h
    simp only [ne_eq, hsig, not_false_eq_true, if_true] at h
    injection h with h
    exact Or.inl h.symm

/-- C11 (amended): on a freshly opened file shorter than 318 bytes `readHMap`
throws no read-failure error.  The only errors it throws are the bad-signature and
the invalid-map-size error, and when the file has at least 7 bytes, its signature
comparison succeeds and the width byte at offset 6 is one of 36, 72, 108, 144, a
record is returned. -/
theorem readHMap_short_stream (mem : Nat → Nat) (s : List Byte) (filePath : Str)
    (hshort : s.length < 318) :
    (∀ e, readHMap mem (openFile s) filePath = .error e →
      e = "File signature is incorrect." ∨ e = "Invalid map size.") ∧
    (∀ h7 : 7 ≤ s.length, (getBE32 (mem 0) (openFile s)).1 = signature →
      s[6].val ∈ [36, 72, 108, 144] → ∃ r, readHMap mem (openFile s) filePath = .ok r) := by
  refine ⟨fun e h => readHMap_errors mem _ filePath e h, ?_⟩
  intro h7 hsig hw
  rcases readHMap_after_signature mem (openFile s) filePath hsig with h | h
  · exfalso
    have hwr := width_read mem s h7
    rw [getD_eq_of_lt s 6 (by omega)] at hwr
    unfold readHMap at h
    simp only [ne_eq, hsig, not_true_eq_false, if_false, hwr] at h
    simp only [List.mem_cons, List.mem_singleton, List.not_mem_nil, or_false] at hw
    rcases hw with hw | hw | hw | hw <;> rw [hw] at h <;> simp [getMapSize] at h
  · exact h

set_option maxRecDepth 8192 in
theorem readHMap_short_stream_witness :
    truncatedHeader.length < 318 ∧
    ∃ r, readHMap (fun _ => 0) (openFile truncatedHeader) (lit "a.mp2") = .ok r :=
  ⟨by decide,
   (readHMap_short_stream (fun _ => 0) truncatedHeader (lit "a.mp2") (by decide)).2
      (by decide) (by decide) (by decide)⟩

set_option maxRecDepth 8192 in
/-- C11 (as stated) fails: a file of 120 bytes, cut two bytes into the description
field, is decoded without any error.  The returned record carries the title, and a
description made of the two bytes that were there followed by 198 spaces. -/
theorem readHMap_truncated_returns_record :
    truncatedHeader.length = 120 ∧
    readHMap (fun _ => 0) (openFile truncatedHeader) (lit "a.mp2")
      = .ok ({ sampleRecord with description := lit "De" ++ List.replicate 198 32 },
            ⟨truncatedHeader, 120, true⟩) :=
  ⟨by decide, rfl⟩

/-! ## The byte swap -/

theorem ofBytesLE_toBytesLE_four (x : Nat) (hx : x < 2 ^ 32) :
    ofBytesLE (toBytesLE 4 x) = x := by
  simp only [toBytesLE, ofBytesLE, Fin.ofNat, Fin.val_mk]
  omega

theorem toBigEndian_eq_reversed (x : Nat) :
    toBigEndian (ofBytesLE (toBytesLE 4 x)) = ofBytesLE (toBytesLE 4 x).reverse := by
  simp only [toBytesLE, List.reverse_cons, List.reverse_nil, List.nil_append, List.cons_append,
    toBigEndian_ofBytesLE]
  simp only [ofBytesLE]
  ring

/-- C15: on a stream in good state whose next four bytes are `b0 b1 b2 b3`,
`getBE32` returns `toBigEndian` of their little-endian load, which is
`b0*2^24 + b1*2^16 + b2*2^8 + b3`: the first byte on disk becomes the most
significant one.  `toBigEndian` is its own inverse on every 32-bit value, so it
reverses the bytes and loses no bit. -/
theorem getBE32_byte_swap (value : Nat) (file : IfStream) (b0 b1 b2 b3 : Byte)
    (hgood : file.fail = false)
    (hbytes : (file.bytes.drop file.pos).take 4 = [b0, b1, b2, b3]) :
    (getBE32 value file).1 = toBigEndian (ofBytesLE [b0, b1, b2, b3]) ∧
    (getBE32 value file).1 = b0.val * 2 ^ 24 + b1.val * 2 ^ 16 + b2.val * 2 ^ 8 + b3.val ∧
    (∀ x, x < 2 ^ 32 → toBigEndian x = ofBytesLE (toBytesLE 4 x).reverse ∧
      toBigEndian x < 2 ^ 32 ∧ toBigEndian (toBigEndian x) = x) := by
  obtain ⟨s, p, f⟩ := file
  simp only at hgood hbytes
  subst hgood
  have hlen : p + 4 ≤ s.length := by
    have := congrArg List.length hbytes
    simp only [List.length_take, List.length_drop, List.length_cons, List.length_nil] at this
    omega
  have hread : (getBE32 value ⟨s, p, false⟩).1 = toBigEndian (ofBytesLE [b0, b1, b2, b3]) := by
    rw [getBE32, read_good s p 4 _ (length_toBytesLE 4 value) hlen, hbytes]
  refine ⟨hread, ?_, ?_⟩
  · rw [hread, toBigEndian_ofBytesLE]
  · intro x hx
    have h1 : toBigEndian x = ofBytesLE (toBytesLE 4 x).reverse := by
      have := toBigEndian_eq_reversed x
      rwa [ofBytesLE_toBytesLE_four x hx] at this
    have hb0 := (Fin.ofNat (x % 256) : Byte).isLt
    have hb1 := (Fin.ofNat (x / 256 % 256) : Byte).isLt
    have hb2 := (Fin.ofNat (x / 256 / 256 % 256) : Byte).isLt
    have hb3 := (Fin.ofNat (x / 256 / 256 / 256 % 256) : Byte).isLt
    refine ⟨h1, ?_, ?_⟩
    · rw [h1]
      simp only [toBytesLE, List.reverse_cons, List.reverse_nil, List.nil_append,
        List.cons_append, ofBytesLE]
      omega
    · rw [h1]
      simp only [toBytesLE, List.reverse_cons, List.reverse_nil, List.nil_append,
        List.cons_append, toBigEndian_ofBytesLE]
      simp only [Fin.ofNat, Fin.val_mk]
      omega

theorem getBE32_byte_swap_witness :
    (getBE32 0 (openFile [0x12, 0x34, 0x56, 0x78, 0x9A])).1 = 0x12345678 ∧
    toBigEndian (toBigEndian 0xDEADBEEF) = 0xDEADBEEF :=
  ⟨(getBE32_byte_swap 0 (openFile [0x12, 0x34, 0x56, 0x78, 0x9A]) 0x12 0x34 0x56 0x78 rfl
      rfl).2.1,
   ((getBE32_byte_swap 0 (openFile [0x12, 0x34, 0x56, 0x78, 0x9A]) 0x12 0x34 0x56 0x78 rfl
      rfl).2.2 0xDEADBEEF (by decide)).2.2⟩

/-! ## Invariants of a decoded record -/

/-- The loop of `getString`, on any stream: it returns at most as many bytes as
the buffer holds and, when what was stored so far has no null byte, none of the
returned bytes is null. -/
theorem getStringLoop_bounds :
    ∀ (k i : Nat) (content : Str) (file : IfStream), content.length = i + k →
      (∀ b ∈ content.take i, b ≠ 0) →
      (getStringLoop k i content file).1.length ≤ i + k ∧
      ∀ b ∈ (getStringLoop k i content file).1, b ≠ 0 := by
  intro k
  induction k with
  | zero =>
    intro i content file hc hnn
    have hle : content.length ≤ i := by omega
    rw [List.take_of_length_le hle] at hnn
    exact ⟨by simp [getStringLoop, hc], by simpa [getStringLoop] using hnn⟩
  | succ k ih =>
    intro i content file hc hnn
    rw [getStringLoop]
    split
    · rw [take_set_self]
      exact ⟨by rw [List.length_take]; omega, hnn⟩
    · rename_i hch
      have hi : i < content.length := by omega
      have := ih (i + 1) (content.set i ((file.read [32]).1.headD 32)) (file.read [32]).2
        (by simp; omega)
        (by
          rw [take_succ_set_self _ _ _ hi]
          intro b hb
          rcases List.mem_append.1 hb with hb | hb
          · exact hnn b hb
          · rw [List.mem_singleton.1 hb]; exact hch)
      exact ⟨by omega, this.2⟩

theorem getString_bounds (file : IfStream) (n : Nat) :
    (getString file n).1.length ≤ n ∧ ∀ b ∈ (getString file n).1, b ≠ 0 := by
  have := getStringLoop_bounds n 0 (List.replicate n 0) file (by simp) (by simp)
  simpa [getString] using this

/-- C19: every record `readHMap` returns from a freshly opened file satisfies:
size is in 0..3; the width byte at offset 6 of the file, when the file has one, is
36*(size+1); title has at most 16 bytes and description at most 200; neither holds
a null byte. -/
theorem readHMap_record_invariants (mem : Nat → Nat) (s : List Byte) (filePath : Str)
    (r : HMapInfo × IfStream) (hok : readHMap mem (openFile s) filePath = .ok r) :
    r.1.size ≤ 3 ∧
    (∀ b : Byte, s[6]? = some b → b.val = 36 * (r.1.size + 1)) ∧
    r.1.title.length ≤ 16 ∧ r.1.description.length ≤ 200 ∧
    (0 : Byte) ∉ r.1.title ∧ (0 : Byte) ∉ r.1.description := by
  obtain ⟨_, hsz, ⟨f, ht⟩, ⟨g, hd⟩⟩ := readHMap_shape mem (openFile s) filePath r hok
  have hsize : ∀ w, getMapSize w = .ok r.1.size → r.1.size ≤ 3 ∧ w = 36 * (r.1.size + 1) := by
    intro w hw
    unfold getMapSize at hw
    split at hw <;> first | (injection hw with hw; omega) | cases hw
  refine ⟨(hsize _ hsz).1, ?_, ?_, ?_, ?_, ?_⟩
  · intro b hb
    have h7 : 7 ≤ s.length := by
      have := (List.getElem?_eq_some_iff.1 hb).1
      omega
    rw [width_read mem s h7] at hsz
    have : s.getD 6 0 = b := by simp [List.getD, hb]
    rw [this] at hsz
    exact (hsize _ hsz).2
  · rw [ht]; exact (getString_bounds f 16).1
  · rw [hd]; exact (getString_bounds g 200).1
  · rw [ht]; exact fun h => (getString_bounds f 16).2 0 h rfl
  · rw [hd]; exact fun h => (getString_bounds g 200).2 0 h rfl

set_option maxRecDepth 8192 in
theorem readHMap_record_invariants_witness :
    sampleRecord.size ≤ 3 ∧ (36 : Byte).val = 36 * (sampleRecord.size + 1) ∧
    sampleRecord.title.length ≤ 16 ∧
    (0 : Byte) ∉ sampleRecord.description :=
  ⟨(readHMap_record_invariants (fun _ => 0) sampleHeader (lit "a.mp2")
      (sampleRecord, ⟨sampleHeader, 123, false⟩) (readHMap_sampleHeader _)).1,
   (readHMap_record_invariants (fun _ => 0) sampleHeader (lit "a.mp2")
      (sampleRecord, ⟨sampleHeader, 123, false⟩) (readHMap_sampleHeader _)).2.1 36 (by decide),
   (readHMap_record_invariants (fun _ => 0) sampleHeader (lit "a.mp2")
      (sampleRecord, ⟨sampleHeader, 123, false⟩) (readHMap_sampleHeader _)).2.2.1,
   (readHMap_record_invariants (fun _ => 0) sampleHeader (lit "a.mp2")
      (sampleRecord, ⟨sampleHeader, 123, false⟩) (readHMap_sampleHeader _)).2.2.2.2.2⟩

/-! ## Which bytes the decoder depends on -/

theorem getD_congr (s1 s2 : List Byte) (i : Nat) (h : s1[i]? = s2[i]?) :
    s1.getD i 0 = s2.getD i 0 := by
  simp [List.getD, h]

theorem window_congr (s1 s2 : List Byte) (a n : Nat)
    (h : ∀ i, a ≤ i → i < a + n → s1[i]? = s2[i]?) :
    (s1.drop a).take n = (s2.drop a).take n := by
  apply List.ext_getElem?
  intro j
  simp only [List.getElem?_take, List.getElem?_drop]
  split
  · exact h (a + j) (by omega) (by omega)
  · rfl

/-- C18: two freshly opened files of at least 318 bytes that agree at the offsets
0-4, 6, 8-26, 35, 58-73 and 118-317 get the same outcome from `readHMap`, whatever
the other bytes, the paths and the indeterminate values are: the same error, or
records with equal difficulty, size, colors, humans, computers, victory and loss
condition, title and description. -/
theorem readHMap_depends_on_modelled_bytes (mem1 mem2 : Nat → Nat) (s1 s2 : List Byte)
    (p1 p2 : Str) (h1 : 318 ≤ s1.length) (h2 : 318 ≤ s2.length)
    (hagree : ∀ i, (i ≤ 4 ∨ i = 6 ∨ (8 ≤ i ∧ i ≤ 26) ∨ i = 35 ∨ (58 ≤ i ∧ i ≤ 73) ∨
      (118 ≤ i ∧ i ≤ 317)) → s1[i]? = s2[i]?) :
    (∃ e, readHMap mem1 (openFile s1) p1 = .error e ∧
      readHMap mem2 (openFile s2) p2 = .error e) ∨
    (∃ r1 r2, readHMap mem1 (openFile s1) p1 = .ok r1 ∧
      readHMap mem2 (openFile s2) p2 = .ok r2 ∧
      r1.1.difficulty = r2.1.difficulty ∧ r1.1.size = r2.1.size ∧
      r1.1.colors = r2.1.colors ∧ r1.1.humans = r2.1.humans ∧
      r1.1.computers = r2.1.computers ∧
      r1.1.victoryCondition = r2.1.victoryCondition ∧
      r1.1.lossCondition = r2.1.lossCondition ∧
      r1.1.title = r2.1.title ∧ r1.1.description = r2.1.description) := by
  have hg : ∀ i, (i ≤ 4 ∨ i = 6 ∨ (8 ≤ i ∧ i ≤ 26) ∨ i = 35 ∨ (58 ≤ i ∧ i ≤ 73) ∨
      (118 ≤ i ∧ i ≤ 317)) → s1.getD i 0 = s2.getD i 0 :=
    fun i hi => getD_congr s1 s2 i (hagree i hi)
  have ht : (s1.drop 58).take 16 = (s2.drop 58).take 16 :=
    window_congr s1 s2 58 16 (fun i ha hb => hagree i (by omega))
  have hd : (s1.drop 118).take 200 = (s2.drop 118).take 200 :=
    window_congr s1 s2 118 200 (fun i ha hb => hagree i (by omega))
  rw [readHMap_good mem1 s1 p1 h1, readHMap_good mem2 s2 p2 h2, ht, hd,
    hg 0 (by omega), hg 1 (by omega), hg 2 (by omega), hg 3 (by omega), hg 4 (by omega),
    hg 6 (by omega), hg 8 (by omega), hg 9 (by omega), hg 10 (by omega), hg 11 (by omega),
    hg 12 (by omega), hg 13 (by omega), hg 14 (by omega), hg 15 (by omega), hg 16 (by omega),
    hg 17 (by omega), hg 18 (by omega), hg 19 (by omega), hg 20 (by omega), hg 21 (by omega),
    hg 22 (by omega), hg 23 (by omega), hg 24 (by omega), hg 25 (by omega), hg 26 (by omega),
    hg 35 (by omega)]
  split
  · exact Or.inl ⟨_, rfl, rfl⟩
  · cases hsz : getMapSize (s2.getD 6 0).val with
    | error e => exact Or.inl ⟨e, rfl, rfl⟩
    | ok size =>
      refine Or.inr ⟨_, _, rfl, rfl, ?_, rfl, rfl, rfl, rfl, rfl, rfl, rfl, rfl⟩
      simp only
      omega

theorem sample_noisy_agree (i : Nat) (hi : i < 318) (h5 : i ≠ 5) (h7 : i ≠ 7) (h30 : i ≠ 30)
    (h40 : i ≠ 40) (h100 : i ≠ 100) : sampleHeader[i]? = noisyHeader[i]? := by
  unfold noisyHeader
  rw [List.getElem?_append_left (by simpa [sampleHeader_length] using hi),
    List.getElem?_set_ne (Ne.symm h100), List.getElem?_set_ne (Ne.symm h40),
    List.getElem?_set_ne (Ne.symm h30), List.getElem?_set_ne (Ne.symm h7),
    List.getElem?_set_ne (Ne.symm h5)]

theorem noisyHeader_length : noisyHeader.length = 321 := by
  simp [noisyHeader, sampleHeader_length]

set_option maxRecDepth 8192 in
theorem readHMap_depends_on_modelled_bytes_witness :
    sampleHeader[5]? ≠ noisyHeader[5]? ∧
    ((∃ e, readHMap (fun _ => 0) (openFile sampleHeader) (lit "a.mp2") = .error e ∧
      readHMap (fun _ => 7) (openFile noisyHeader) (lit "b.mpx") = .error e) ∨
    (∃ r1 r2, readHMap (fun _ => 0) (openFile sampleHeader) (lit "a.mp2") = .ok r1 ∧
      readHMap (fun _ => 7) (openFile noisyHeader) (lit "b.mpx") = .ok r2 ∧
      r1.1.difficulty = r2.1.difficulty ∧ r1.1.size = r2.1.size ∧
      r1.1.colors = r2.1.colors ∧ r1.1.humans = r2.1.humans ∧
      r1.1.computers = r2.1.computers ∧
      r1.1.victoryCondition = r2.1.victoryCondition ∧
      r1.1.lossCondition = r2.1.lossCondition ∧
      r1.1.title = r2.1.title ∧ r1.1.description = r2.1.description)) :=
  ⟨by decide,
   readHMap_depends_on_modelled_bytes (fun _ => 0) (fun _ => 7) sampleHeader noisyHeader
    (lit "a.mp2") (lit "b.mpx") (Nat.le_of_eq sampleHeader_length.symm)
    (by rw [noisyHeader_length]; decide)
    (fun i hi => sample_noisy_agree i (by omega) (by omega) (by omega) (by omega) (by omega)
      (by omega))⟩

/-! ## The substitution loop -/

theorem replaceProperty_of_find_none (fuel : Nat) (content toReplace replacement : Str)
    (h : find content toReplace = none) :
    replaceProperty (fuel + 1) content toReplace replacement = some content := by
  rw [replaceProperty, h]

theorem replaceProperty_of_find_some (fuel : Nat) (content toReplace replacement : Str)
    (pos : Nat) (h : find content toReplace = some pos) :
    replaceProperty (fuel + 1) content toReplace replacement =
      replaceProperty fuel
        (content.take pos ++ replacement ++ content.drop (pos + toReplace.length))
        toReplace replacement := by
  rw [replaceProperty, h]

/-- More fuel does not change a result already reached. -/
theorem replaceProperty_mono (toReplace replacement : Str) :
    ∀ (fuel fuel2 : Nat) (content out : Str), fuel ≤ fuel2 →
      replaceProperty fuel content toReplace replacement = some out →
      replaceProperty fuel2 content toReplace replacement = some out := by
  intro fuel
  induction fuel with
  | zero => intro fuel2 content out _ h; simp [replaceProperty] at h
  | succ n ih =>
    intro fuel2 content out hle h
    obtain ⟨m, rfl⟩ : ∃ m, fuel2 = m + 1 := ⟨fuel2 - 1, by omega⟩
    cases hf : find content toReplace with
    | none =>
      rw [replaceProperty_of_find_none _ _ _ _ hf] at h ⊢
      exact h
    | some pos =>
      rw [replaceProperty_of_find_some _ _ _ _ pos hf] at h ⊢
      exact ih m _ out (by omega) h

theorem substituteProperties_mono (fuel fuel2 : Nat) (hMapInfo : HMapInfo) (content out : Str)
    (hle : fuel ≤ fuel2) (h : substituteProperties fuel hMapInfo content = some out) :
    substituteProperties fuel2 hMapInfo content = some out := by
  simp only [substituteProperties, Option.bind_eq_some] at h ⊢
  obtain ⟨c1, h1, c2, h2, c3, h3, c4, h4, c5, h5, c6, h6, c7, h7, c8, h8, c9, h9, h10⟩ := h
  exact ⟨c1, replaceProperty_mono _ _ _ _ _ _ hle h1, c2, replaceProperty_mono _ _ _ _ _ _ hle h2,
    c3, replaceProperty_mono _ _ _ _ _ _ hle h3, c4, replaceProperty_mono _ _ _ _ _ _ hle h4,
    c5, replaceProperty_mono _ _ _ _ _ _ hle h5, c6, replaceProperty_mono _ _ _ _ _ _ hle h6,
    c7, replaceProperty_mono _ _ _ _ _ _ hle h7, c8, replaceProperty_mono _ _ _ _ _ _ hle h8,
    c9, replaceProperty_mono _ _ _ _ _ _ hle h9, replaceProperty_mono _ _ _ _ _ _ hle h10⟩

/-- C13: when the template holds none of the ten recognised tokens, each of the
ten `replaceProperty` calls stops at its first search and the substitution
sequence returns the template unchanged, for every record and whatever other brace
tokens the template holds. -/
theorem substituteProperties_no_token (fuel : Nat) (hMapInfo : HMapInfo) (content : Str)
    (h1 : find content (lit "\x7bversion\x7d") = none)
    (h2 : find content (lit "\x7bdifficulty\x7d") = none)
    (h3 : find content (lit "\x7bsize\x7d") = none)
    (h4 : find content (lit "\x7bcolors\x7d") = none)
    (h5 : find content (lit "\x7bhumans\x7d") = none)
    (h6 : find content (lit "\x7bcomputers\x7d") = none)
    (h7 : find content (lit "\x7bvictoryCondition\x7d") = none)
    (h8 : find content (lit "\x7blossCondition\x7d") = none)
    (h9 : find content (lit "\x7btitle\x7d") = none)
    (h10 : find content (lit "\x7bdescription\x7d") = none) :
    substituteProperties (fuel + 1) hMapInfo content = some content := by
  unfold substituteProperties
  rw [replaceProperty_of_find_none _ _ _ _ h1, Option.some_bind,
    replaceProperty_of_find_none _ _ _ _ h2, Option.some_bind,
    replaceProperty_of_find_none _ _ _ _ h3, Option.some_bind,
    replaceProperty_of_find_none _ _ _ _ h4, Option.some_bind,
    replaceProperty_of_find_none _ _ _ _ h5, Option.some_bind,
    replaceProperty_of_find_none _ _ _ _ h6, Option.some_bind,
    replaceProperty_of_find_none _ _ _ _ h7, Option.some_bind,
    replaceProperty_of_find_none _ _ _ _ h8, Option.some_bind,
    replaceProperty_of_find_none _ _ _ _ h9, Option.some_bind,
    replaceProperty_of_find_none _ _ _ _ h10]

theorem substituteProperties_no_token_witness :
    substituteProperties 1 sampleRecord (lit "map \x7bfoo\x7d, \x7bTitle\x7d: \x7b\x7d")
      = some (lit "map \x7bfoo\x7d, \x7bTitle\x7d: \x7b\x7d") :=
  substituteProperties_no_token 0 sampleRecord (lit "map \x7bfoo\x7d, \x7bTitle\x7d: \x7b\x7d")
    (by decide) (by decide) (by decide) (by decide) (by decide) (by decide) (by decide)
    (by decide) (by decide) (by decide)

/-! ## Rendering strings -/

/-- The first eight substitutions leave a template alone when it holds none of
their tokens. -/
theorem substituteProperties_skip_eight (fuel : Nat) (hMapInfo : HMapInfo) (content : Str)
    (h1 : find content (lit "\x7bversion\x7d") = none)
    (h2 : find content (lit "\x7bdifficulty\x7d") = none)
    (h3 : find content (lit "\x7bsize\x7d") = none)
    (h4 : find content (lit "\x7bcolors\x7d") = none)
    (h5 : find content (lit "\x7bhumans\x7d") = none)
    (h6 : find content (lit "\x7bcomputers\x7d") = none)
    (h7 : find content (lit "\x7bvictoryCondition\x7d") = none)
    (h8 : find content (lit "\x7blossCondition\x7d") = none) :
    substituteProperties (fuel + 1) hMapInfo content =
      (replaceProperty (fuel + 1) content (lit "\x7btitle\x7d") hMapInfo.title).bind
        fun content =>
        replaceProperty (fuel + 1) content (lit "\x7bdescription\x7d") hMapInfo.description := by
  unfold substituteProperties
  rw [replaceProperty_of_find_none _ _ _ _ h1, Option.some_bind,
    replaceProperty_of_find_none _ _ _ _ h2, Option.some_bind,
    replaceProperty_of_find_none _ _ _ _ h3, Option.some_bind,
    replaceProperty_of_find_none _ _ _ _ h4, Option.some_bind,
    replaceProperty_of_find_none _ _ _ _ h5, Option.some_bind,
    replaceProperty_of_find_none _ _ _ _ h6, Option.some_bind,
    replaceProperty_of_find_none _ _ _ _ h7, Option.some_bind,
    replaceProperty_of_find_none _ _ _ _ h8, Option.some_bind]

/-- Replacing in a content that is the token itself: one replacement, then the
search runs over the replacement text. -/
theorem replaceProperty_whole (fuel : Nat) (toReplace replacement : Str)
    (hne : toReplace ≠ []) (h : find replacement toReplace = none) :
    replaceProperty (fuel + 2) toReplace toReplace replacement = some replacement := by
  have hs : ∀ p : Str, startsWith p p = true := by
    intro p
    induction p with
    | nil => rfl
    | cons c cs ih => simp [startsWith, ih]
  have hf : find toReplace toReplace = some 0 := by
    cases toReplace with
    | nil => exact absurd rfl hne
    | cons c cs => rw [find, if_pos (hs _)]
  rw [replaceProperty_of_find_some _ _ _ _ 0 hf]
  simp only [List.take_zero, List.nil_append, Nat.zero_add, List.drop_length, List.append_nil]
  exact replaceProperty_of_find_none _ _ _ _ h

/-- C12 (amended): the template `{title}` renders as exactly the title of the
record when the title holds neither `{title}` nor `{description}`, and the
template `{description}` renders as exactly the description when the description
does not hold `{description}`; two iterations per substitution suffice. -/
theorem substituteProperties_verbatim (fuel : Nat) (hMapInfo : HMapInfo) :
    (find hMapInfo.title (lit "\x7btitle\x7d") = none →
      find hMapInfo.title (lit "\x7bdescription\x7d") = none →
      substituteProperties (fuel + 2) hMapInfo (lit "\x7btitle\x7d") = some hMapInfo.title) ∧
    (find hMapInfo.description (lit "\x7bdescription\x7d") = none →
      substituteProperties (fuel + 2) hMapInfo (lit "\x7bdescription\x7d")
        = some hMapInfo.description) := by
  constructor
  · intro ht hd
    rw [substituteProperties_skip_eight (fuel + 1) hMapInfo _ (by decide) (by decide) (by decide)
      (by decide) (by decide) (by decide) (by decide) (by decide),
      replaceProperty_whole fuel _ _ (by decide) ht, Option.some_bind,
      replaceProperty_of_find_none _ _ _ _ hd]
  · intro hd
    rw [substituteProperties_skip_eight (fuel + 1) hMapInfo _ (by decide) (by decide) (by decide)
      (by decide) (by decide) (by decide) (by decide) (by decide),
      replaceProperty_of_find_none _ _ _ _ (by decide), Option.some_bind,
      replaceProperty_whole fuel _ _ (by decide) hd]

theorem substituteProperties_verbatim_witness :
    substituteProperties 2 sampleRecord (lit "\x7btitle\x7d") = some (lit "Test") ∧
    substituteProperties 2 { sampleRecord with description := lit "see \x7btitle\x7d \x7bx\x7d" }
      (lit "\x7bdescription\x7d") = some (lit "see \x7btitle\x7d \x7bx\x7d") :=
  ⟨(substituteProperties_verbatim 0 sampleRecord).1 (by decide) (by decide),
   (substituteProperties_verbatim 0
      { sampleRecord with description := lit "see \x7btitle\x7d \x7bx\x7d" }).2 (by decide)⟩

/-- C12 (as stated) fails: for the record with title `{description}` and
description `Desc`, the template `{title}` renders as `Desc`; with no amount of
fuel does it render as the title. -/
theorem substituteProperties_title_rewritten :
    substituteProperties 2 { sampleRecord with title := lit "\x7bdescription\x7d" }
      (lit "\x7btitle\x7d") = some (lit "Desc") ∧
    ∀ fuel, substituteProperties fuel { sampleRecord with title := lit "\x7bdescription\x7d" }
      (lit "\x7btitle\x7d") ≠ some (lit "\x7bdescription\x7d") := by
  have h2 : substituteProperties 2 { sampleRecord with title := lit "\x7bdescription\x7d" }
      (lit "\x7btitle\x7d") = some (lit "Desc") := by decide
  refine ⟨h2, ?_⟩
  intro fuel h
  have a := substituteProperties_mono 2 (max fuel 2) _ _ _ (Nat.le_max_right _ _) h2
  have b := substituteProperties_mono fuel (max fuel 2) _ _ _ (Nat.le_max_left _ _) h
  rw [a] at b
  revert b
  decide

/-! ## Termination of the substitution loop -/

/-- The record decoded from `loopingTitleHeader`: its title is `{title}`. -/
theorem readHMap_loopingTitleHeader (path : Str) :
    readHMap (fun _ => 0) (openFile loopingTitleHeader) path
      = .ok ({ sampleRecord with title := lit "\x7btitle\x7d" },
            ⟨loopingTitleHeader, 123, false⟩) := by
  rfl

/-- With the title `{title}` as replacement, every iteration over the template
`title: {title}` finds the token again at offset 7 and leaves the content as it
was. -/
theorem replaceProperty_title_loops (fuel : Nat) :
    replaceProperty fuel (lit "title: \x7btitle\x7d") (lit "\x7btitle\x7d")
      (lit "\x7btitle\x7d") = none := by
  induction fuel with
  | zero => rfl
  | succ n ih =>
    rw [replaceProperty_of_find_some _ _ _ _ 7 (by decide)]
    have hsame : (lit "title: \x7btitle\x7d").take 7 ++ lit "\x7btitle\x7d"
        ++ (lit "title: \x7btitle\x7d").drop (7 + (lit "\x7btitle\x7d").length)
        = lit "title: \x7btitle\x7d" := by decide
    rw [hsame]
    exact ih

/-- C16 fails on the code: the 318-byte header `loopingTitleHeader` decodes to a
record whose title is `{title}`, and rendering it against the template
`title: {title}` never ends: the ninth `replaceProperty` call replaces the token by
itself in every iteration, so no amount of fuel yields a text. -/
theorem substituteProperties_title_never_returns :
    (∃ r, readHMap (fun _ => 0) (openFile loopingTitleHeader) (lit "a.mp2") = .ok r ∧
      r.1.title = lit "\x7btitle\x7d" ∧
      (∀ fuel, replaceProperty fuel (lit "title: \x7btitle\x7d") (lit "\x7btitle\x7d")
        r.1.title = none) ∧
      (∀ fuel, substituteProperties fuel r.1 (lit "title: \x7btitle\x7d") = none) ∧
      (∀ fuel, displayHMapInfo fuel (some (lit "title: \x7btitle\x7d")) r.1 (lit "a.mp2")
        = none)) := by
  refine ⟨_, readHMap_loopingTitleHeader _, rfl, replaceProperty_title_loops, ?_⟩
  have hsub : ∀ fuel, substituteProperties fuel { sampleRecord with title := lit "\x7btitle\x7d" }
      (lit "title: \x7btitle\x7d") = none := by
    intro fuel
    cases fuel with
    | zero => rfl
    | succ n =>
      rw [substituteProperties_skip_eight n _ _ (by decide) (by decide) (by decide)
        (by decide) (by decide) (by decide) (by decide) (by decide)]
      show (replaceProperty (n + 1) (lit "title: \x7btitle\x7d") (lit "\x7btitle\x7d")
        (lit "\x7btitle\x7d")).bind _ = none
      rw [replaceProperty_title_loops]
      rfl
  refine ⟨hsub, ?_⟩
  intro fuel
  show (substituteProperties fuel _ _).map _ = none
  rw [hsub]
  rfl

/-! ## End to end -/

/-- Rendering `sampleTemplate` for a record with size 0, no color flag set and
title `Test`, whatever its other fields are. -/
theorem substituteProperties_sampleTemplate (hMapInfo : HMapInfo) (hsize : hMapInfo.size = 0)
    (hcolors : hMapInfo.colors = Bitset6.zero) (htitle : hMapInfo.title = lit "Test") :
    substituteProperties 2 hMapInfo sampleTemplate
      = some (lit "size: 0\ncolors: [0,0,0,0,0,0]\ntitle: Test") := by
  unfold substituteProperties
  rw [replaceProperty_of_find_none _ _ _ _ (by decide), Option.some_bind,
    replaceProperty_of_find_none _ _ _ _ (by decide), Option.some_bind, hsize, hcolors, htitle]
  have h3 : replaceProperty 2 sampleTemplate (lit "\x7bsize\x7d") (to_string 0)
      = some (lit "size: 0\ncolors: \x7bcolors\x7d\ntitle: \x7btitle\x7d") := by decide
  have h4 : replaceProperty 2 (lit "size: 0\ncolors: \x7bcolors\x7d\ntitle: \x7btitle\x7d")
      (lit "\x7bcolors\x7d") (colorsToString Bitset6.zero)
      = some (lit "size: 0\ncolors: [0,0,0,0,0,0]\ntitle: \x7btitle\x7d") := by decide
  have h9 : replaceProperty 2 (lit "size: 0\ncolors: [0,0,0,0,0,0]\ntitle: \x7btitle\x7d")
      (lit "\x7btitle\x7d") (lit "Test")
      = some (lit "size: 0\ncolors: [0,0,0,0,0,0]\ntitle: Test") := by decide
  rw [h3, Option.some_bind, h4, Option.some_bind,
    replaceProperty_of_find_none _ _ _ _ (by decide), Option.some_bind,
    replaceProperty_of_find_none _ _ _ _ (by decide), Option.some_bind,
    replaceProperty_of_find_none _ _ _ _ (by decide), Option.some_bind,
    replaceProperty_of_find_none _ _ _ _ (by decide), Option.some_bind,
    h9, Option.some_bind, replaceProperty_of_find_none _ _ _ _ (by decide)]

/-- C14: a freshly opened 318-byte header whose signature passes the comparison,
with width byte 36, all 18 flag bytes 0, victory and loss byte `FF`, the title
field `Test` followed by null bytes and a description field that starts with a
null byte is decoded by `readHMap` without error; rendering the record against
the template `size: {size}`, `colors: {colors}`, `title: {title}` (one per line)
ends and yields the text `size: 0`, `colors: [0,0,0,0,0,0]`, `title: Test`, which
holds each of these three lines. -/
theorem readHMap_render_minimal_header (mem : Nat → Nat) (s : List Byte) (filePath : Str)
    (hlen : s.length = 318)
    (hsig : (getBE32 (mem 0) (openFile s)).1 = signature)
    (hwidth : s[6] = 36)
    (hflags : ∀ (i : Nat) (hi : i < 18), s[8 + i] = 0)
    (hvictory : s[26] = 0xFF) (hloss : s[35] = 0xFF)
    (htitle : (s.drop 58).take 16 = lit "Test" ++ List.replicate 12 0)
    (hdesc : s[118] = 0) :
    ∃ r out, readHMap mem (openFile s) filePath = .ok r ∧
      r.1.size = 0 ∧ r.1.colors = Bitset6.zero ∧ r.1.humans = Bitset6.zero ∧
      r.1.computers = Bitset6.zero ∧ r.1.victoryCondition = 255 ∧ r.1.lossCondition = 255 ∧
      r.1.title = lit "Test" ∧ r.1.description = [] ∧
      substituteProperties 2 r.1 sampleTemplate = some out ∧
      displayHMapInfo 2 (some sampleTemplate) r.1 filePath = some (.ok (out ++ lit "\n")) ∧
      out = lit "size: 0\ncolors: [0,0,0,0,0,0]\ntitle: Test" ∧
      find out (lit "size: 0") ≠ none ∧ find out (lit "colors: [0,0,0,0,0,0]") ≠ none ∧
      find out (lit "title: Test") ≠ none := by
  have h318 : 318 ≤ s.length := by omega
  have hform := readHMap_good mem s filePath h318
  have hsigv : (getBE32 (mem 0) (openFile s)).1 =
      (s.getD 0 0).val * 2 ^ 24 + (s.getD 1 0).val * 2 ^ 16 + (s.getD 2 0).val * 2 ^ 8
          + (s.getD 3 0).val := by
    rw [openFile, getBE32_good _ s 0 (by omega)]
  rw [← hsigv, if_neg (by simpa using hsig), getD_eq_of_lt s 6 (by omega), hwidth] at hform
  have hf : ∀ i, i < 18 → (s.getD (8 + i) 0).val ≠ 1 := by
    intro i hi
    rw [getD_eq_of_lt s (8 + i) (by omega), hflags i hi]
    decide
  have hdw : ((s.drop 118).take 200).takeWhile (fun b => decide (b ≠ 0)) = [] := by
    rw [take_succ_drop s 118 199 (by omega), getD_eq_of_lt s 118 (by omega), hdesc]
    rfl
  have htw : ((s.drop 58).take 16).takeWhile (fun b => decide (b ≠ 0)) = lit "Test" := by
    rw [htitle]
    decide
  rw [htw, hdw, getD_eq_of_lt s 26 (by omega), hvictory, getD_eq_of_lt s 35 (by omega), hloss]
    at hform
  simp only [show getMapSize ((36 : Byte).val) = .ok 0 from rfl,
    hf 0 (by omega), hf 1 (by omega), hf 2 (by omega), hf 3 (by omega), hf 4 (by omega),
    hf 5 (by omega), hf 6 (by omega), hf 7 (by omega), hf 8 (by omega), hf 9 (by omega),
    hf 10 (by omega), hf 11 (by omega), hf 12 (by omega), hf 13 (by omega), hf 14 (by omega),
    hf 15 (by omega), hf 16 (by omega), hf 17 (by omega), decide_False] at hform
  have hsub := substituteProperties_sampleTemplate
    { version := mem 24 % 256
      difficulty := ((s.getD 4 0).val + 256 * (s.getD 5 0).val) % 256
      size := 0, colors := Bitset6.zero, humans := Bitset6.zero, computers := Bitset6.zero
      victoryCondition := 255, lossCondition := 255, title := lit "Test", description := [] }
    rfl rfl rfl
  refine ⟨_, lit "size: 0\ncolors: [0,0,0,0,0,0]\ntitle: Test", hform, rfl, rfl, rfl, rfl, rfl,
    rfl, rfl, rfl, hsub, ?_, rfl, by decide, by decide, by decide⟩
  exact congrArg
    (Option.map (fun content => (Except.ok (content ++ lit "\n") : Except String Str))) hsub

set_option maxRecDepth 8192 in
theorem readHMap_render_minimal_header_witness :
    ∃ r out, readHMap (fun _ => 0) (openFile minimalHeader) (lit "a.mp2") = .ok r ∧
      substituteProperties 2 r.1 sampleTemplate = some out ∧
      find out (lit "size: 0") ≠ none ∧ find out (lit "colors: [0,0,0,0,0,0]") ≠ none ∧
      find out (lit "title: Test") ≠ none := by
  obtain ⟨r, out, h1, _, _, _, _, _, _, _, _, h2, _, _, h3, h4, h5⟩ :=
    readHMap_render_minimal_header (fun _ => 0) minimalHeader (lit "a.mp2") (by decide)
      (by decide) (by decide) (by decide) (by decide) (by decide) (by decide) (by decide)
  exact ⟨r, out, h1, h2, h3, h4, h5⟩

/-! ## Searching -/

theorem startsWith_iff (s p : Str) : startsWith s p = true ↔ p <+: s := by
  induction s generalizing p with
  | nil =>
    cases p with
    | nil => simp [startsWith]
    | cons a p => simp [startsWith]
  | cons c cs ih =>
    cases p with
    | nil => simp [startsWith]
    | cons a p =>
      simp only [startsWith, Bool.and_eq_true, decide_eq_true_eq, ih, List.cons_prefix_cons]
      exact and_congr_left (fun _ => eq_comm)

theorem startsWith_eq_false_iff (s p : Str) : startsWith s p = false ↔ ¬ p <+: s := by
  rw [← startsWith_iff]
  cases startsWith s p <;> simp

/-- What `find` returns: `none` when no suffix of the text starts with the
pattern, otherwise the least offset at which one does. -/
theorem find_spec (p : Str) : ∀ s : Str,
    (find s p = none ∧ ∀ i, i ≤ s.length → ¬ p <+: s.drop i) ∨
    (∃ j, find s p = some j ∧ j ≤ s.length ∧ p <+: s.drop j ∧ ∀ i, i < j → ¬ p <+: s.drop i) := by
  intro s
  induction s with
  | nil =>
    by_cases hp : p = []
    · right
      exact ⟨0, by simp [find, hp], Nat.le_refl _, by simp [hp], fun i hi => absurd hi (by omega)⟩
    · left
      refine ⟨by simp [find, hp], fun i _ => ?_⟩
      simpa using hp
  | cons c cs ih =>
    by_cases hs : startsWith (c :: cs) p = true
    · right
      exact ⟨0, by simp [find, hs], by simp, by simpa using (startsWith_iff _ _).1 hs,
        fun i hi => absurd hi (by omega)⟩
    · have hs2 : ¬ p <+: c :: cs := fun h => hs ((startsWith_iff _ _).2 h)
      rcases ih with ⟨hn, hall⟩ | ⟨j, hj, hle, hocc, hmin⟩
      · left
        refine ⟨by simp [find, hs, hn], fun i hi => ?_⟩
        cases i with
        | zero => simpa using hs2
        | succ i => simpa using hall i (by simpa using hi)
      · right
        refine ⟨j + 1, by simp [find, hs, hj], by simpa using hle, by simpa using hocc,
          fun i hi => ?_⟩
        cases i with
        | zero => simpa using hs2
        | succ i => simpa using hmin i (by omega)

theorem find_eq_none_iff (s p : Str) :
    find s p = none ↔ ∀ i, i ≤ s.length → ¬ p <+: s.drop i := by
  rcases find_spec p s with ⟨hn, hall⟩ | ⟨j, hj, hle, hocc, _⟩
  · exact ⟨fun _ => hall, fun _ => hn⟩
  · constructor
    · intro h; rw [h] at hj; cases hj
    · intro h; exact absurd hocc (h j hle)

theorem find_eq_some_of_first (s p : Str) (j : Nat) (hle : j ≤ s.length) (hocc : p <+: s.drop j)
    (hmin : ∀ i, i < j → ¬ p <+: s.drop i) : find s p = some j := by
  rcases find_spec p s with ⟨_, hall⟩ | ⟨k, hk, _, hocck, hmink⟩
  · exact absurd hocc (hall j hle)
  · have : k = j := by
      rcases Nat.lt_trichotomy k j with h | h | h
      · exact absurd hocck (hmin k h)
      · exact h
      · exact absurd hocc (hmink j h)
    rw [hk, this]

/-- A text in which the pattern occurs somewhere is not searched in vain. -/
theorem find_ne_none_of_occurrence (a p b : Str) : find (a ++ p ++ b) p ≠ none := by
  intro h
  have := (find_eq_none_iff _ _).1 h a.length (by simp)
  apply this
  rw [List.append_assoc, List.drop_left]
  exact List.prefix_append _ _

/-- Whatever `replaceProperty` returns holds no occurrence of the token. -/
theorem replaceProperty_result_clean (toReplace replacement : Str) :
    ∀ (fuel : Nat) (content out : Str),
      replaceProperty fuel content toReplace replacement = some out →
      find out toReplace = none := by
  intro fuel
  induction fuel with
  | zero => intro content out h; simp [replaceProperty] at h
  | succ n ih =>
    intro content out h
    cases hf : find content toReplace with
    | none =>
      rw [replaceProperty_of_find_none _ _ _ _ hf] at h
      injection h with h
      rw [← h]; exact hf
    | some pos =>
      rw [replaceProperty_of_find_some _ _ _ _ pos hf] at h
      exact ih _ out h

/-! ## The substitution loop against a single pass -/

/-- Replacing an occurrence of `{name}` that is the first one from offset
`D.length` on creates no occurrence that starts in `D` or in the replacement,
when the replacement has no brace and does not occur in `name`. -/
theorem no_new_occurrence (name R : Str)
    (hr1 : (123 : Byte) ∉ R) (hr2 : (125 : Byte) ∉ R) (hinf : find name R = none)
    (D B : Str)
    (hinv : ∀ i, i < D.length →
      ¬ (123 :: (name ++ [125])) <+: (D ++ ((123 :: (name ++ [125])) ++ B)).drop i) :
    ∀ i, i < (D ++ R).length → ¬ (123 :: (name ++ [125])) <+: ((D ++ R) ++ B).drop i := by
  intro i hi hocc
  by_cases hiD : i < D.length
  · have hD1 : D.drop i ≠ [] := by
      intro h
      have := congrArg List.length h
      simp at this
      omega
    rw [List.append_assoc, List.drop_append_of_le_length (Nat.le_of_lt hiD)] at hocc
    have hinv' := hinv i hiD
    rw [List.drop_append_of_le_length (Nat.le_of_lt hiD)] at hinv'
    generalize D.drop i = D1 at hD1 hocc hinv'
    rcases List.prefix_or_prefix_of_prefix hocc (List.prefix_append D1 _) with h | h
    · exact hinv' (h.trans (List.prefix_append D1 _))
    · obtain ⟨P2, hP2⟩ := h
      rw [← hP2, List.prefix_append_right_inj] at hocc
      cases D1 with
      | nil => exact hD1 rfl
      | cons d D1t =>
        rw [List.cons_append] at hP2
        injection hP2 with _ hP2
        rcases List.eq_nil_or_concat P2 with hnil | ⟨P2i, l, hcat⟩
        · apply hinv'
          rw [hnil, List.append_nil] at hP2
          rw [← hP2]
          subst d
          exact List.prefix_append _ _
        · rw [hcat, List.concat_eq_append] at hP2 hocc
          rw [← List.append_assoc] at hP2
          obtain ⟨hname, hl⟩ := List.append_inj' hP2 rfl
          injection hl with hl
          subst hl
          rcases List.prefix_or_prefix_of_prefix hocc (List.prefix_append R B) with h | h
          · exact hr2 (h.subset (by simp))
          · rcases List.prefix_concat_iff.1 h with h | h
            · exact hr2 (by rw [h]; simp)
            · obtain ⟨t, ht⟩ := h
              apply find_ne_none_of_occurrence D1t R t
              rw [List.append_assoc, ht, hname]
              exact hinf
  · have hk : i - D.length < R.length := by
      simp only [List.length_append] at hi
      omega
    have hdrop : ((D ++ R) ++ B).drop i = R.drop (i - D.length) ++ B := by
      rw [List.append_assoc, show i = D.length + (i - D.length) by omega, List.drop_append,
        List.drop_append_of_le_length (Nat.le_of_lt (by omega))]
      simp
    rw [hdrop] at hocc
    have hR1 : R.drop (i - D.length) ≠ [] := by
      intro h
      have := congrArg List.length h
      simp at this
      omega
    cases hR : R.drop (i - D.length) with
    | nil => exact hR1 hR
    | cons x R1 =>
      rw [hR, List.cons_append, List.cons_prefix_cons] at hocc
      apply hr1
      rw [hocc.1]
      exact List.mem_of_mem_drop (by rw [hR]; simp)

/-- The loop of `replaceProperty` against the single pass: with `D` already
settled (no occurrence of `{name}` starts in it) and `B` still to visit, the loop
ends and returns `D` followed by the single pass over `B`. -/
theorem replaceProperty_pass (name R : Str)
    (hr1 : (123 : Byte) ∉ R) (hr2 : (125 : Byte) ∉ R) (hinf : find name R = none) :
    ∀ (n : Nat) (B D : Str) (fuel : Nat), B.length ≤ n → n < fuel →
      (∀ i, i < D.length → ¬ (123 :: (name ++ [125])) <+: (D ++ B).drop i) →
      replaceProperty fuel (D ++ B) (123 :: (name ++ [125])) R
        = some (D ++ singlePassLoop n B (123 :: (name ++ [125])) R) := by
  have hend : ∀ (D : Str) (fuel : Nat), 0 < fuel →
      (∀ i, i < D.length → ¬ (123 :: (name ++ [125])) <+: (D ++ []).drop i) →
      replaceProperty fuel (D ++ []) (123 :: (name ++ [125])) R = some (D ++ []) := by
    intro D fuel hfuel hinv
    obtain ⟨m, rfl⟩ : ∃ m, fuel = m + 1 := ⟨fuel - 1, by omega⟩
    apply replaceProperty_of_find_none
    rw [find_eq_none_iff]
    intro i hi
    by_cases hiD : i < D.length
    · exact hinv i hiD
    · have : (D ++ []).drop i = [] := List.drop_eq_nil_of_le (by simp; omega)
      rw [this]
      simp
  intro n
  induction n with
  | zero =>
    intro B D fuel hB hfuel hinv
    have : B = [] := List.length_eq_zero.1 (by omega)
    subst this
    exact hend D fuel hfuel hinv
  | succ n ih =>
    intro B D fuel hB hfuel hinv
    cases B with
    | nil => exact hend D fuel (by omega) hinv
    | cons c cs =>
      obtain ⟨m, rfl⟩ : ∃ m, fuel = m + 1 := ⟨fuel - 1, by omega⟩
      by_cases hs : startsWith (c :: cs) (123 :: (name ++ [125])) = true
      · obtain ⟨B2, hB2⟩ := (startsWith_iff _ _).1 hs
        have hfind : find (D ++ c :: cs) (123 :: (name ++ [125])) = some D.length := by
          apply find_eq_some_of_first
          · simp
          · rw [List.drop_left]; exact (startsWith_iff _ _).1 hs
          · exact hinv
        have hlen : B2.length ≤ n := by
          have := congrArg List.length hB2
          simp only [List.length_append, List.length_cons, List.length_nil] at this hB
          omega
        rw [replaceProperty_of_find_some _ _ _ _ _ hfind, singlePassLoop, if_pos hs, ← hB2,
          List.take_left, List.drop_append, List.drop_left, ← List.append_assoc D R]
        have := ih B2 (D ++ R) m hlen (by omega)
          (no_new_occurrence name R hr1 hr2 hinf D B2 (by rw [hB2]; exact hinv))
        rw [this, List.append_assoc]
      · have hs2 : ¬ (123 :: (name ++ [125])) <+: c :: cs :=
          fun h => hs ((startsWith_iff _ _).2 h)
        have hcs : cs.length ≤ n := by simpa using hB
        have := ih cs (D ++ [c]) (m + 1) hcs (by omega) (by
          intro i hi
          rw [List.append_assoc, List.singleton_append]
          by_cases hiD : i < D.length
          · exact hinv i hiD
          · have : i = D.length := by simp at hi; omega
            rw [this, List.drop_left]
            exact hs2)
        rw [List.append_assoc, List.singleton_append] at this
        rw [this, singlePassLoop, if_neg hs]
        simp

theorem placeholder_eq (name : Str) :
    lit "\x7b" ++ name ++ lit "\x7d" = 123 :: (name ++ [125]) := by
  have h1 : lit "\x7b" = [123] := by decide
  have h2 : lit "\x7d" = [125] := by decide
  rw [h1, h2]
  simp

/-- C17 (amended): for every content, every placeholder `{name}` whose name has
no brace and every replacement that has no brace and does not occur inside the
name (so it is not empty), `replaceProperty` ends within `content.length`
replacements and returns the single left-to-right pass over the original content
that puts the replacement for each occurrence of the placeholder and copies every
other byte; the result holds no occurrence of the placeholder. -/
theorem replaceProperty_refines_singlePass (content name replacement : Str)
    (_hname : (123 : Byte) ∉ name ∧ (125 : Byte) ∉ name)
    (hrepl : (123 : Byte) ∉ replacement ∧ (125 : Byte) ∉ replacement)
    (hinside : find name replacement = none) :
    (∀ fuel, content.length < fuel →
      replaceProperty fuel content (lit "\x7b" ++ name ++ lit "\x7d") replacement
        = some (singlePass content (lit "\x7b" ++ name ++ lit "\x7d") replacement)) ∧
    find (singlePass content (lit "\x7b" ++ name ++ lit "\x7d") replacement)
      (lit "\x7b" ++ name ++ lit "\x7d") = none := by
  have hpass : ∀ fuel, content.length < fuel →
      replaceProperty fuel content (lit "\x7b" ++ name ++ lit "\x7d") replacement
        = some (singlePass content (lit "\x7b" ++ name ++ lit "\x7d") replacement) := by
    intro fuel hfuel
    have := replaceProperty_pass name replacement hrepl.1 hrepl.2 hinside content.length
      content [] fuel (Nat.le_refl _) hfuel (fun i hi => absurd hi (by simp))
    rw [placeholder_eq, singlePass]
    simpa using this
  exact ⟨hpass, replaceProperty_result_clean _ _ _ _ _ (hpass (content.length + 1) (by omega))⟩

theorem replaceProperty_refines_singlePass_witness :
    replaceProperty 30 (lit "a \x7bsize\x7d b \x7bsize\x7d\x7bsize")
        (lit "\x7b" ++ lit "size" ++ lit "\x7d") (lit "36")
      = some (lit "a 36 b 36\x7bsize") ∧
    singlePass (lit "a \x7bsize\x7d b \x7bsize\x7d\x7bsize")
        (lit "\x7b" ++ lit "size" ++ lit "\x7d") (lit "36") = lit "a 36 b 36\x7bsize" :=
  ⟨((replaceProperty_refines_singlePass (lit "a \x7bsize\x7d b \x7bsize\x7d\x7bsize")
      (lit "size") (lit "36") (by decide) (by decide) (by decide)).1 30 (by decide)).trans
      (by decide),
   by decide⟩

/-- C17 (as stated) fails: with the content `{t{title}le}`, the placeholder
`{title}` and the brace-free replacement `it`, the first replacement builds a new
`{title}` around the replacement and the loop replaces that as well.  The loop
returns `it`; the single pass over the original content gives `{title}`. -/
theorem replaceProperty_rescans_replacement :
    ((123 : Byte) ∉ lit "title" ∧ (125 : Byte) ∉ lit "title") ∧
    ((123 : Byte) ∉ lit "it" ∧ (125 : Byte) ∉ lit "it") ∧
    replaceProperty 3 (lit "\x7bt\x7btitle\x7dle\x7d")
      (lit "\x7b" ++ lit "title" ++ lit "\x7d") (lit "it") = some (lit "it") ∧
    singlePass (lit "\x7bt\x7btitle\x7dle\x7d")
      (lit "\x7b" ++ lit "title" ++ lit "\x7d") (lit "it") = lit "\x7btitle\x7d" ∧
    ∀ fuel, replaceProperty fuel (lit "\x7bt\x7btitle\x7dle\x7d")
      (lit "\x7b" ++ lit "title" ++ lit "\x7d") (lit "it")
      ≠ some (singlePass (lit "\x7bt\x7btitle\x7dle\x7d")
        (lit "\x7b" ++ lit "title" ++ lit "\x7d") (lit "it")) := by
  have h3 : replaceProperty 3 (lit "\x7bt\x7btitle\x7dle\x7d")
      (lit "\x7b" ++ lit "title" ++ lit "\x7d") (lit "it") = some (lit "it") := by decide
  refine ⟨by decide, by decide, h3, by decide, ?_⟩
  intro fuel h
  have a := replaceProperty_mono _ _ 3 (max fuel 3) _ _ (Nat.le_max_right _ _) h3
  have b := replaceProperty_mono _ _ fuel (max fuel 3) _ _ (Nat.le_max_left _ _) h
  rw [a] at b
  revert b
  decide

end HMap
